import Mathlib

/-!
# Verification of `car_maintenance_tracker.py`

A shallow embedding of the car-maintenance tracker: the JSON document store
(`TrackerStore` in the source) and its operations, together with proofs of the
specified properties.

The persisted state is a JSON document.  We model it at two levels:

* a typed document level (`PartDoc`, `RecordDoc`, `StateDoc`) mirroring the
  dictionaries held in `self.data`, with `Option` fields for the optional keys
  (`notes`, `details`, `cost`, and the top-level `current_mileage_km`, which is
  read with `dict.get(..., 0)`) — a `none` models an absent key;
* a raw JSON level (`Json`) with a serializer (`json.dump`) and parser
  (`json.load`) for the persistence layer.

Python `int` is modeled as `Int`.  Python `float` values are modeled by their
exact decimal representation (`Dec`), since `repr`/`json` round-trips floats
through their shortest decimal form; exponent-notation reprs are outside the
model.  String comparison and case mapping are modeled on the character lists
(code-point comparison, ASCII case mapping), matching Python semantics on the
ASCII range.
-/

namespace CarTracker

/-! ## String helpers: `str.strip().lower()` and string ordering -/

/-- `str.lower()` on one character (ASCII case mapping). -/
def charLower (c : Char) : Char :=
  if c.isUpper then Char.ofNat (c.toNat + 32) else c

/-- `str.strip()`: remove leading and trailing whitespace. -/
def trimChars (cs : List Char) : List Char :=
  ((cs.dropWhile Char.isWhitespace).reverse.dropWhile Char.isWhitespace).reverse

/-- `name.strip().lower()`: the normalization used for part-name lookup
(`find_part`, line 67). -/
def normName (s : String) : String :=
  String.mk ((trimChars s.data).map charLower)

/-- Lexicographic comparison of character lists by code point
(Python's `str` comparison, used by the `(mileage_km, date)` sort key). -/
def charsLE : List Char → List Char → Bool
  | [], _ => true
  | _ :: _, [] => false
  | a :: as, b :: bs =>
    if a.toNat < b.toNat then true
    else if b.toNat < a.toNat then false
    else charsLE as bs

/-- Python `a <= b` on strings. -/
def strLE (a b : String) : Bool := charsLE a.data b.data

/-! ## Data model -/

/-- An exact decimal number: the value `m / 10^e`.  `e = 0` models a Python
`int`; `e ≥ 1` models a `float` via its (finite) decimal `repr`. -/
structure Dec where
  m : Int
  e : Nat
deriving DecidableEq, Repr

/-- The `ConsumablePart` dataclass (lines 17–22). -/
structure ConsumablePart where
  name : String
  interval_km : Int
  last_change_km : Int
  notes : String := ""
deriving DecidableEq, Repr

/-- The `ServiceRecord` dataclass (lines 25–31); `cost: float = 0.0`. -/
structure ServiceRecord where
  date : String
  mileage_km : Int
  title : String
  details : String := ""
  cost : Dec := ⟨0, 1⟩
deriving DecidableEq, Repr

/-- A part dictionary as stored in `self.data["parts"]`.  The `notes` key is
optional in a persisted document; `none` models an absent key. -/
structure PartDoc where
  name : String
  interval_km : Int
  last_change_km : Int
  notes : Option String
deriving DecidableEq, Repr

/-- A service-record dictionary as stored in `self.data["service_history"]`.
`details` and `cost` are optional in a persisted document. -/
structure RecordDoc where
  date : String
  mileage_km : Int
  title : String
  details : Option String
  cost : Option Dec
deriving DecidableEq, Repr

/-- The `self.data` document: top-level keys `current_mileage_km` (optional,
read through `.get(..., 0)`), `parts` and `service_history`. -/
structure StateDoc where
  current_mileage_km : Option Int
  parts : List PartDoc
  service_history : List RecordDoc
deriving DecidableEq, Repr

/-- `dataclasses.asdict` on a `ConsumablePart`: every field becomes a key. -/
def asdictPart (p : ConsumablePart) : PartDoc :=
  ⟨p.name, p.interval_km, p.last_change_km, some p.notes⟩

/-- `dataclasses.asdict` on a `ServiceRecord`: every field becomes a key. -/
def asdictRecord (r : ServiceRecord) : RecordDoc :=
  ⟨r.date, r.mileage_km, r.title, some r.details, some r.cost⟩

/-- The outcome of one store method: the document afterwards, whether
`self.save()` was called, and the return value. -/
structure OpResult (α : Type) where
  state : StateDoc
  saved : Bool
  ret : α
deriving DecidableEq, Repr

/-! ## Store operations (`TrackerStore`, lines 34–99) -/

/-- `current_mileage` (lines 49–51): `self.data.get("current_mileage_km", 0)`. -/
def current_mileage (s : StateDoc) : Int :=
  s.current_mileage_km.getD 0

/-- `set_current_mileage` (lines 53–55). -/
def set_current_mileage (s : StateDoc) (mileage_km : Int) : OpResult Unit :=
  ⟨{ s with current_mileage_km := some mileage_km }, true, ()⟩

/-- The loop test in `find_part` (line 69):
`part["name"].strip().lower() == lowered`. -/
def partMatches (name : String) (p : PartDoc) : Bool :=
  normName p.name == normName name

/-- `find_part` (lines 66–71): first part whose normalized name matches. -/
def find_part (s : StateDoc) (name : String) : Option PartDoc :=
  s.parts.find? (partMatches name)

/-- Mutation of the first element satisfying `pred` in place (the Python code
mutates the dictionary returned by `find_part` through its reference). -/
def updateFirst {α : Type} (pred : α → Bool) (f : α → α) : List α → List α
  | [] => []
  | a :: as => if pred a then f a :: as else a :: updateFirst pred f as

/-- `add_part` (lines 57–64): if a part with the same normalized name exists,
`existing.update(asdict(part))` overwrites every field in place; otherwise the
new part dictionary is appended.  Always saves. -/
def add_part (s : StateDoc) (part : ConsumablePart) : OpResult Unit :=
  if (s.parts.find? (partMatches part.name)).isSome then
    let parts' := updateFirst (partMatches part.name) (fun _ => asdictPart part) s.parts
    ⟨{ s with parts := parts' }, true, ()⟩
  else
    ⟨{ s with parts := s.parts ++ [asdictPart part] }, true, ()⟩

/-- `change_part` (lines 73–81): look up by name; on a miss return `False`
without mutating or saving; on a hit set `last_change_km`, overwrite `notes`
only when the argument is non-empty (`if notes:`), save, and return `True`. -/
def change_part (s : StateDoc) (name : String) (mileage_km : Int)
    (notes : String := "") : OpResult Bool :=
  match s.parts.find? (partMatches name) with
  | none => ⟨s, false, false⟩
  | some _ =>
    let setFields : PartDoc → PartDoc := fun p =>
      { p with
        last_change_km := mileage_km,
        notes := if notes = "" then p.notes else some notes }
    let parts' := updateFirst (partMatches name) setFields s.parts
    ⟨{ s with parts := parts' }, true, true⟩

/-- The descending comparison realized by
`sort(key=lambda x: (x["mileage_km"], x["date"]), reverse=True)` (lines 85–87):
`recordGE a b` holds when the key of `a` is lexicographically ≥ the key of `b`. -/
def recordGE (a b : RecordDoc) : Bool :=
  decide (b.mileage_km < a.mileage_km) ||
    (a.mileage_km == b.mileage_km && strLE b.date a.date)

/-- `add_service_record` (lines 83–88): append `asdict(record)`, then re-sort
the whole history.  Python's `list.sort` is stable; with `reverse=True` it is a
stable descending sort, modeled by `mergeSort` with the reversed comparison. -/
def add_service_record (s : StateDoc) (record : ServiceRecord) : OpResult Unit :=
  let history' := (s.service_history ++ [asdictRecord record]).mergeSort recordGE
  ⟨{ s with service_history := history' }, true, ()⟩

/-- A due-list entry `{**part, "due_at_km": ..., "remaining_km": ...}`
(line 96). -/
structure DuePartView where
  name : String
  interval_km : Int
  last_change_km : Int
  notes : Option String
  due_at_km : Int
  remaining_km : Int
deriving DecidableEq, Repr

/-- One loop iteration of `due_parts` (lines 93–97). -/
def mkDueView (current : Int) (p : PartDoc) : DuePartView :=
  { name := p.name
    interval_km := p.interval_km
    last_change_km := p.last_change_km
    notes := p.notes
    due_at_km := p.last_change_km + p.interval_km
    remaining_km := p.last_change_km + p.interval_km - current }

/-- The comparison of `results.sort(key=lambda x: x["remaining_km"])` (line 98). -/
def viewLE (a b : DuePartView) : Bool :=
  decide (a.remaining_km ≤ b.remaining_km)

/-- The reference mileage of `due_parts` (line 91):
`self.current_mileage if at_mileage is None else at_mileage`. -/
def refMileage (s : StateDoc) (at_mileage : Option Int) : Int :=
  match at_mileage with
  | none => current_mileage s
  | some m => m

/-- `due_parts` (lines 90–99): build one view per part and sort ascending by
`remaining_km` (Python's stable sort).  The method mutates nothing (each view
is a fresh dictionary, and `results` is a fresh list) and never calls
`self.save()`, recorded by the `state`/`saved` components. -/
def due_parts (s : StateDoc) (at_mileage : Option Int := none) :
    OpResult (List DuePartView) :=
  ⟨s, false, (s.parts.map (mkDueView (refMileage s at_mileage))).mergeSort viewLE⟩

/-! ## The persistence layer: JSON documents, `json.dump` and `json.load`

The store's documents use numbers, strings, arrays and objects; this is the
fragment of JSON modeled here.  `json.dump(..., ensure_ascii=False, indent=2)`
is modeled up to inter-token whitespace (the parser is whitespace-tolerant, so
the indentation does not affect the parsed value). -/

/-- A JSON value of the fragment used by the store's documents. -/
inductive Json where
  | num (m : Int) (e : Nat)
  | str (s : String)
  | arr (elems : List Json)
  | obj (fields : List (String × Json))

/-- Decimal digit to character. -/
def digitCh (d : Nat) : Char := Char.ofNat (48 + d)

/-- The decimal digits of a natural number, most significant first. -/
def natDigsAux (n : Nat) (acc : List Char) : List Char :=
  if n < 10 then digitCh n :: acc
  else natDigsAux (n / 10) (digitCh (n % 10) :: acc)
termination_by n
decreasing_by
  exact Nat.div_lt_self (by omega) (by omega)

/-- The decimal digits of a natural number. -/
def natDigs (n : Nat) : List Char := natDigsAux n []

/-- Serialization of the number `m / 10^e`: Python prints an `int` as its
decimal digits and a finite-decimal `float` as `digits.digits` with `e`
fractional digits. -/
def renderNum (m : Int) (e : Nat) : List Char :=
  let ds := natDigs m.natAbs
  let padded := List.replicate (e + 1 - ds.length) '0' ++ ds
  let sign := if m < 0 then ['-'] else []
  if e = 0 then sign ++ padded
  else sign ++ (padded.take (padded.length - e) ++ '.' :: padded.drop (padded.length - e))

/-- Hexadecimal digit to character (lowercase, as Python emits). -/
def hexDigit (n : Nat) : Char :=
  if n < 10 then digitCh n else Char.ofNat (87 + n)

/-- `json.dump` escaping of one character inside a string literal: with
`ensure_ascii=False` only `"`, `\` and control characters are escaped. -/
def escapeChar (c : Char) : List Char :=
  if c = '"' then ['\\', '"']
  else if c = '\\' then ['\\', '\\']
  else if c = '\n' then ['\\', 'n']
  else if c = '\t' then ['\\', 't']
  else if c = '\r' then ['\\', 'r']
  else if c.toNat = 8 then ['\\', 'b']
  else if c.toNat = 12 then ['\\', 'f']
  else if c.toNat < 32 then ['\\', 'u', '0', '0', hexDigit (c.toNat / 16), hexDigit (c.toNat % 16)]
  else [c]

/-- The escaped body of a string literal. -/
def escapeChars (cs : List Char) : List Char := (cs.map escapeChar).flatten

/-- Serialization of a string literal. -/
def renderStr (s : String) : List Char := '"' :: escapeChars s.data ++ ['"']

mutual

/-- `json.dump` of a value (whitespace elided). -/
def dumpJson : Json → List Char
  | .num m e => renderNum m e
  | .str s => renderStr s
  | .arr xs => '[' :: dumpElems xs ++ [']']
  | .obj fs => '{' :: dumpFields fs ++ ['}']

/-- The comma-separated elements of an array. -/
def dumpElems : List Json → List Char
  | [] => []
  | x :: xs => dumpJson x ++ dumpElemsRest xs

/-- The remaining elements of an array, each preceded by `", "`. -/
def dumpElemsRest : List Json → List Char
  | [] => []
  | y :: ys => ',' :: ' ' :: (dumpJson y ++ dumpElemsRest ys)

/-- The comma-separated `"key": value` entries of an object. -/
def dumpFields : List (String × Json) → List Char
  | [] => []
  | (k, v) :: fs => renderStr k ++ ':' :: ' ' :: dumpJson v ++ dumpFieldsRest fs

/-- The remaining entries of an object, each preceded by `", "`. -/
def dumpFieldsRest : List (String × Json) → List Char
  | [] => []
  | (k, v) :: fs => ',' :: ' ' :: (renderStr k ++ ':' :: ' ' :: dumpJson v ++ dumpFieldsRest fs)

end

/-- `save` (lines 45–47): `json.dump(self.data, f, ...)` writes the whole
document. -/
def saveText (d : Json) : String := String.mk (dumpJson d)

/-- JSON inter-token whitespace. -/
def isWs (c : Char) : Bool := c = ' ' || c = '\n' || c = '\t' || c = '\r'

/-- Skip inter-token whitespace. -/
def skipWs : List Char → List Char
  | [] => []
  | c :: cs => if isWs c then skipWs cs else c :: cs

/-- Greedily take decimal digits. -/
def takeDigits : List Char → List Char × List Char
  | [] => ([], [])
  | c :: cs =>
    if c.isDigit then
      let (ds, r) := takeDigits cs
      (c :: ds, r)
    else ([], c :: cs)

/-- The value of a digit string. -/
def digsVal (ds : List Char) : Nat :=
  ds.foldl (fun v c => v * 10 + (c.toNat - 48)) 0

/-- Parse a JSON number (the integer/decimal forms emitted by `json.dump`). -/
def parseNumber (cs : List Char) : Option (Json × List Char) :=
  let neg : Bool :=
    match cs with
    | c :: _ => c = '-'
    | [] => false
  let cs₁ : List Char := if neg then cs.tail else cs
  match takeDigits cs₁ with
  | ([], _) => none
  | (ds, rest) =>
    let sgn : Int := if neg then -1 else 1
    match rest with
    | c :: rest2 =>
      if c = '.' then
        match takeDigits rest2 with
        | ([], _) => none
        | (fs, rest3) => some (.num (sgn * (digsVal (ds ++ fs) : Int)) fs.length, rest3)
      else some (.num (sgn * (digsVal ds : Int)) 0, c :: rest2)
    | [] => some (.num (sgn * (digsVal ds : Int)) 0, [])

/-- The value of a hexadecimal digit character. -/
def parseHex (c : Char) : Option Nat :=
  if 48 ≤ c.toNat ∧ c.toNat ≤ 57 then some (c.toNat - 48)
  else if 97 ≤ c.toNat ∧ c.toNat ≤ 102 then some (c.toNat - 87)
  else if 65 ≤ c.toNat ∧ c.toNat ≤ 70 then some (c.toNat - 55)
  else none

/-- Prepend a character to the string being accumulated by `parseStrBody`. -/
def consCont (c : Char) : Option (List Char × List Char) → Option (List Char × List Char)
  | some (s, r) => some (c :: s, r)
  | none => none

/-- Parse the body of a string literal after the opening quote, up to and
including the closing quote. -/
def parseStrBody : List Char → Option (List Char × List Char)
  | [] => none
  | c :: rest =>
    if c = '"' then some ([], rest)
    else if c = '\\' then
      match rest with
      | [] => none
      | e :: rest2 =>
        if e = '"' then consCont '"' (parseStrBody rest2)
        else if e = '\\' then consCont '\\' (parseStrBody rest2)
        else if e = '/' then consCont '/' (parseStrBody rest2)
        else if e = 'n' then consCont '\n' (parseStrBody rest2)
        else if e = 't' then consCont '\t' (parseStrBody rest2)
        else if e = 'r' then consCont '\r' (parseStrBody rest2)
        else if e = 'b' then consCont (Char.ofNat 8) (parseStrBody rest2)
        else if e = 'f' then consCont (Char.ofNat 12) (parseStrBody rest2)
        else if e = 'u' then
          match rest2 with
          | h1 :: h2 :: h3 :: h4 :: rest3 =>
            match parseHex h1, parseHex h2, parseHex h3, parseHex h4 with
            | some a, some b, some c2, some d =>
              consCont (Char.ofNat (a * 4096 + b * 256 + c2 * 16 + d)) (parseStrBody rest3)
            | _, _, _, _ => none
          | _ => none
        else none
    else consCont c (parseStrBody rest)

/-- Rebuild an array value after parsing its elements. -/
def arrWrap : Option (List Json × List Char) → Option (Json × List Char)
  | some (xs, r) => some (.arr xs, r)
  | none => none

/-- Rebuild an object value after parsing its fields. -/
def objWrap : Option (List (String × Json) × List Char) → Option (Json × List Char)
  | some (fs, r) => some (.obj fs, r)
  | none => none

/-- Rebuild a string value after parsing its body. -/
def strWrap : Option (List Char × List Char) → Option (Json × List Char)
  | some (s, r) => some (.str (String.mk s), r)
  | none => none

/-- Prepend a parsed element to the remaining elements. -/
def consElem (x : Json) : Option (List Json × List Char) → Option (List Json × List Char)
  | some (xs, r) => some (x :: xs, r)
  | none => none

/-- Prepend a parsed entry to the remaining entries. -/
def consField (k : String) (v : Json) :
    Option (List (String × Json) × List Char) → Option (List (String × Json) × List Char)
  | some (fs, r) => some ((k, v) :: fs, r)
  | none => none

mutual

/-- Parse one JSON value (fuel-indexed recursive descent). -/
def parseVal : Nat → List Char → Option (Json × List Char)
  | 0, _ => none
  | f + 1, cs =>
    match skipWs cs with
    | [] => none
    | c :: rest => parseValCore f c rest

/-- Dispatch on the first character of a value. -/
def parseValCore (f : Nat) (c : Char) (rest : List Char) : Option (Json × List Char) :=
  if c = '"' then strWrap (parseStrBody rest)
  else if c = '[' then arrWrap (parseElems f rest)
  else if c = '{' then objWrap (parseFields f rest)
  else parseNumber (c :: rest)

/-- Parse the elements of an array after `[`. -/
def parseElems : Nat → List Char → Option (List Json × List Char)
  | 0, _ => none
  | f + 1, cs =>
    match skipWs cs with
    | [] => none
    | c :: rest =>
      if c = ']' then some ([], rest)
      else parseElemsTail f (parseVal f (c :: rest))

/-- Continue an element list after one element was parsed. -/
def parseElemsTail (f : Nat) : Option (Json × List Char) → Option (List Json × List Char)
  | some (x, r) => consElem x (parseElemsRest f r)
  | none => none

/-- Parse `, elem`* `]` after an array element. -/
def parseElemsRest : Nat → List Char → Option (List Json × List Char)
  | 0, _ => none
  | f + 1, cs =>
    match skipWs cs with
    | [] => none
    | c :: rest =>
      if c = ']' then some ([], rest)
      else if c = ',' then parseElemsTail f (parseVal f rest)
      else none

/-- Parse the entries of an object after `{`. -/
def parseFields : Nat → List Char → Option (List (String × Json) × List Char)
  | 0, _ => none
  | f + 1, cs =>
    match skipWs cs with
    | [] => none
    | c :: rest =>
      if c = '}' then some ([], rest)
      else if c = '"' then keyWrap f (parseStrBody rest)
      else none

/-- Continue an object entry after its key string was parsed. -/
def keyWrap (f : Nat) : Option (List Char × List Char) → Option (List (String × Json) × List Char)
  | some (k, r) => parseFieldsAfterKey f k r
  | none => none

/-- Parse `: value` after an entry's key. -/
def parseFieldsAfterKey (f : Nat) (k : List Char) (cs : List Char) :
    Option (List (String × Json) × List Char) :=
  match skipWs cs with
  | [] => none
  | c :: rest => if c = ':' then parseFieldsTail f k (parseVal f rest) else none

/-- Continue an object entry list after one entry's value was parsed. -/
def parseFieldsTail (f : Nat) (k : List Char) :
    Option (Json × List Char) → Option (List (String × Json) × List Char)
  | some (v, r) => consField (String.mk k) v (parseFieldsRest f r)
  | none => none

/-- Parse `, "key": value`* `}` after an object entry. -/
def parseFieldsRest : Nat → List Char → Option (List (String × Json) × List Char)
  | 0, _ => none
  | f + 1, cs =>
    match skipWs cs with
    | [] => none
    | c :: rest =>
      if c = '}' then some ([], rest)
      else if c = ',' then parseFieldsRestComma f rest
      else none

/-- Parse the next `"key": value` entry after a comma. -/
def parseFieldsRestComma (f : Nat) (cs : List Char) :
    Option (List (String × Json) × List Char) :=
  match skipWs cs with
  | [] => none
  | c :: rest => if c = '"' then keyWrap f (parseStrBody rest) else none

end

mutual

/-- Fuel sufficient for `parseVal` on a value. -/
def wJ : Json → Nat
  | .num _ _ => 1
  | .str _ => 1
  | .arr xs => 1 + wE xs
  | .obj fs => 1 + wF fs

/-- Fuel sufficient for `parseElems`/`parseElemsRest` on an element list. -/
def wE : List Json → Nat
  | [] => 1
  | x :: xs => 1 + max (wJ x) (wE xs)

/-- Fuel sufficient for `parseFields`/`parseFieldsRest` on a field list. -/
def wF : List (String × Json) → Nat
  | [] => 1
  | (_, v) :: fs => 1 + max (wJ v) (wF fs)

end

/-- The characters that may legally follow a serialized value. -/
def delimOk : List Char → Prop
  | [] => True
  | c :: _ => c = ',' ∨ c = ']' ∨ c = '}'

/-- A list that does not begin with a digit (so a greedy digit scan stops). -/
def noDigitHead : List Char → Prop
  | [] => True
  | c :: _ => ¬ c.isDigit = true

/-- `json.load`: parse a whole document, allowing trailing whitespace only. -/
def parseDoc (t : String) : Option Json :=
  match parseVal (t.data.length + 1) t.data with
  | some (d, rest) => if skipWs rest = [] then some d else none
  | none => none

/-- The error raised by `json.load` on malformed content
(`json.JSONDecodeError`), which `_load` propagates — the spec's
`StorageCorruptError`. -/
inductive StorageCorruptError where
  | corrupt
deriving DecidableEq, Repr

/-- The default document of `_load` (line 41):
`{"current_mileage_km": 0, "parts": [], "service_history": []}`. -/
def defaultData : Json :=
  .obj [("current_mileage_km", .num 0 0), ("parts", .arr []), ("service_history", .arr [])]

/-- `_load` (lines 39–43): the default document when no file exists at
`db_path`, otherwise `json.load` of the file's content. -/
def _load (content : Option String) : Except StorageCorruptError Json :=
  match content with
  | none => .ok defaultData
  | some t =>
    match parseDoc t with
    | some d => .ok d
    | none => .error .corrupt

/-! ## The storage schema (§6): reading and writing typed documents

The Python mutates the JSON document directly, so the correspondence between
the raw document and the typed `StateDoc` is implicit in its field accesses
(`data["parts"]`, `part["name"]`, `rec.get("cost")`, …).  `decodeState` and
`encodeState` make that correspondence explicit: optional keys may be absent,
and unknown keys are ignored by `decodeState` exactly as the field accesses
ignore them. -/

/-- Dictionary lookup (first occurrence of the key). -/
def lookupJ (fields : List (String × Json)) (k : String) : Option Json :=
  match fields with
  | [] => none
  | (k', v) :: rest => if k' = k then some v else lookupJ rest k

/-- Decode every element of an array. -/
def decodeList {α : Type} (f : Json → Option α) : List Json → Option (List α)
  | [] => some []
  | x :: xs =>
    match f x, decodeList f xs with
    | some a, some as => some (a :: as)
    | _, _ => none

/-- Read a part dictionary: `name`, `interval_km`, `last_change_km` required,
`notes` optional, unknown keys ignored. -/
def decodePart (j : Json) : Option PartDoc :=
  match j with
  | .obj fs =>
    match lookupJ fs "name", lookupJ fs "interval_km", lookupJ fs "last_change_km" with
    | some (.str n), some (.num iv 0), some (.num lc 0) =>
      match lookupJ fs "notes" with
      | none => some ⟨n, iv, lc, none⟩
      | some (.str t) => some ⟨n, iv, lc, some t⟩
      | some _ => none
    | _, _, _ => none
  | _ => none

/-- Read a service-record dictionary: `date`, `mileage_km`, `title` required,
`details` and `cost` optional, unknown keys ignored. -/
def decodeRecord (j : Json) : Option RecordDoc :=
  match j with
  | .obj fs =>
    match lookupJ fs "date", lookupJ fs "mileage_km", lookupJ fs "title" with
    | some (.str d), some (.num mk 0), some (.str t) =>
      let details : Option (Option String) :=
        match lookupJ fs "details" with
        | none => some none
        | some (.str s) => some (some s)
        | some _ => none
      let cost : Option (Option Dec) :=
        match lookupJ fs "cost" with
        | none => some none
        | some (.num m e) => some (some ⟨m, e⟩)
        | some _ => none
      match details, cost with
      | some ds, some cs => some ⟨d, mk, t, ds, cs⟩
      | _, _ => none
    | _, _, _ => none
  | _ => none

/-- Read a state document: `parts` and `service_history` required (the store
accesses them unconditionally), `current_mileage_km` optional (read through
`.get`), unknown keys ignored. -/
def decodeState (j : Json) : Option StateDoc :=
  match j with
  | .obj fs =>
    match lookupJ fs "parts", lookupJ fs "service_history" with
    | some (.arr ps), some (.arr hs) =>
      match decodeList decodePart ps, decodeList decodeRecord hs with
      | some parts, some hist =>
        match lookupJ fs "current_mileage_km" with
        | none => some ⟨none, parts, hist⟩
        | some (.num m 0) => some ⟨some m, parts, hist⟩
        | some _ => none
      | _, _ => none
    | _, _ => none
  | _ => none

/-- Write a part dictionary (an absent optional key is simply not written). -/
def encodePart (p : PartDoc) : Json :=
  .obj ([("name", .str p.name), ("interval_km", .num p.interval_km 0),
         ("last_change_km", .num p.last_change_km 0)] ++
        (match p.notes with
         | some t => [("notes", .str t)]
         | none => []))

/-- Write a service-record dictionary. -/
def encodeRecord (r : RecordDoc) : Json :=
  .obj ([("date", .str r.date), ("mileage_km", .num r.mileage_km 0),
         ("title", .str r.title)] ++
        (match r.details with
         | some s => [("details", .str s)]
         | none => []) ++
        (match r.cost with
         | some c => [("cost", .num c.m c.e)]
         | none => []))

/-- Write a state document. -/
def encodeState (s : StateDoc) : Json :=
  .obj ((match s.current_mileage_km with
         | some m => [("current_mileage_km", .num m 0)]
         | none => []) ++
        [("parts", .arr (s.parts.map encodePart)),
         ("service_history", .arr (s.service_history.map encodeRecord))])

/-! ## Default-filling of optional keys (§3 defaults: `notes = ""`,
`details = ""`, `cost = 0`) — used to compare the behavior of the store on a
document with missing optional keys against the same document with the
defaults materialized. -/

/-- Materialize the default for a part's optional `notes` key. -/
def fillPart (p : PartDoc) : PartDoc :=
  { p with notes := some (p.notes.getD "") }

/-- Materialize the defaults for a record's optional `details`/`cost` keys. -/
def fillRecord (r : RecordDoc) : RecordDoc :=
  { r with details := some (r.details.getD ""), cost := some (r.cost.getD ⟨0, 0⟩) }

/-- Materialize the default for a view's optional `notes` key. -/
def fillView (v : DuePartView) : DuePartView :=
  { v with notes := some (v.notes.getD "") }

/-- Materialize all §3 defaults in a document. -/
def fillState (s : StateDoc) : StateDoc :=
  ⟨some (current_mileage s), s.parts.map fillPart, s.service_history.map fillRecord⟩

/-- The state after one `add_service_record` call (used to fold a call
sequence). -/
def applyService (s : StateDoc) (r : ServiceRecord) : StateDoc :=
  (add_service_record s r).state

/-- The §3 uniqueness invariant: at most one part per normalized name. -/
def uniqueNames (l : List PartDoc) : Prop :=
  l.Pairwise (fun p q => normName p.name ≠ normName q.name)

instance : DecidablePred uniqueNames := fun l =>
  List.instDecidablePairwise l

/-! ## Helper lemmas: the orders used by the two sorts -/

theorem charsLE_cons_iff {x y : Char} {xs ys : List Char} :
    charsLE (x :: xs) (y :: ys) = true ↔
      x.toNat < y.toNat ∨ (x.toNat = y.toNat ∧ charsLE xs ys = true) := by
  simp only [charsLE]
  by_cases h1 : x.toNat < y.toNat
  · simp [h1]
  · by_cases h2 : y.toNat < x.toNat
    · simp [h1, h2]; omega
    · have : x.toNat = y.toNat := by omega
      simp [h1, h2, this]

theorem charsLE_total (a b : List Char) : charsLE a b = true ∨ charsLE b a = true := by
  induction a generalizing b with
  | nil => left; rfl
  | cons x xs ih =>
    cases b with
    | nil => right; rfl
    | cons y ys =>
      rcases Nat.lt_trichotomy x.toNat y.toNat with h | h | h
      · left; exact charsLE_cons_iff.mpr (Or.inl h)
      · rcases ih ys with h' | h'
        · left; exact charsLE_cons_iff.mpr (Or.inr ⟨h, h'⟩)
        · right; exact charsLE_cons_iff.mpr (Or.inr ⟨h.symm, h'⟩)
      · right; exact charsLE_cons_iff.mpr (Or.inl h)

theorem charsLE_trans {a b c : List Char} (h1 : charsLE a b = true)
    (h2 : charsLE b c = true) : charsLE a c = true := by
  induction a generalizing b c with
  | nil => rfl
  | cons x xs ih =>
    cases b with
    | nil => simp [charsLE] at h1
    | cons y ys =>
      cases c with
      | nil => simp [charsLE] at h2
      | cons z zs =>
        rcases charsLE_cons_iff.mp h1 with hxy | ⟨hxy, hxs⟩ <;>
          rcases charsLE_cons_iff.mp h2 with hyz | ⟨hyz, hys⟩
        · exact charsLE_cons_iff.mpr (Or.inl (by omega))
        · exact charsLE_cons_iff.mpr (Or.inl (by omega))
        · exact charsLE_cons_iff.mpr (Or.inl (by omega))
        · exact charsLE_cons_iff.mpr (Or.inr ⟨by omega, ih hxs hys⟩)

theorem charsLE_refl (a : List Char) : charsLE a a = true := by
  induction a with
  | nil => rfl
  | cons x xs ih => exact charsLE_cons_iff.mpr (Or.inr ⟨rfl, ih⟩)

theorem recordGE_total (a b : RecordDoc) : (recordGE a b || recordGE b a) = true := by
  simp only [recordGE, strLE, Bool.or_eq_true, decide_eq_true_eq, Bool.and_eq_true, beq_iff_eq]
  rcases Int.lt_trichotomy a.mileage_km b.mileage_km with h | h | h
  · tauto
  · rcases charsLE_total a.date.data b.date.data with h' | h' <;> tauto
  · tauto

theorem recordGE_trans (a b c : RecordDoc) (h1 : recordGE a b = true)
    (h2 : recordGE b c = true) : recordGE a c = true := by
  simp only [recordGE, strLE, Bool.or_eq_true, decide_eq_true_eq, Bool.and_eq_true,
    beq_iff_eq] at h1 h2 ⊢
  rcases h1 with h1 | ⟨h1e, h1s⟩ <;> rcases h2 with h2 | ⟨h2e, h2s⟩
  · exact Or.inl (by omega)
  · exact Or.inl (by omega)
  · exact Or.inl (by omega)
  · exact Or.inr ⟨by omega, charsLE_trans h2s h1s⟩

theorem viewLE_total (a b : DuePartView) : (viewLE a b || viewLE b a) = true := by
  simp only [viewLE, Bool.or_eq_true, decide_eq_true_eq]
  omega

theorem viewLE_trans (a b c : DuePartView) (h1 : viewLE a b = true)
    (h2 : viewLE b c = true) : viewLE a c = true := by
  simp only [viewLE, decide_eq_true_eq] at h1 h2 ⊢
  omega

/-! ## Helper lemmas: `updateFirst` and stable sorting -/

theorem updateFirst_spec {α : Type} (pred : α → Bool) (f : α → α)
    (l₁ l₂ : List α) (a : α) (h : ∀ x ∈ l₁, ¬ pred x = true) :
    updateFirst pred f (l₁ ++ a :: l₂) =
      l₁ ++ (if pred a then f a :: l₂ else a :: updateFirst pred f l₂) := by
  induction l₁ with
  | nil => simp [updateFirst]
  | cons x xs ih =>
    have hx : ¬ pred x = true := h x (by simp)
    simp only [List.cons_append, updateFirst, if_neg hx, List.append_eq]
    rw [ih (fun y hy => h y (by simp [hy]))]

/-- A merge sort with a transitive, total comparison is stable: the
subsequence of elements on which the comparison does not discriminate is
unchanged. -/
theorem mergeSort_filter_eq {α : Type} {le : α → α → Bool}
    (htrans : ∀ a b c : α, le a b = true → le b c = true → le a c = true)
    (htotal : ∀ a b : α, (le a b || le b a) = true)
    (p : α → Bool) (hp : ∀ a b : α, p a = true → p b = true → le a b = true)
    (l : List α) :
    (l.mergeSort le).filter p = l.filter p := by
  have hpw : (l.filter p).Pairwise (fun a b => le a b = true) :=
    List.pairwise_of_forall_mem_list fun a ha b hb =>
      hp a b (List.of_mem_filter ha) (List.of_mem_filter hb)
  have hsub : (l.filter p).Sublist (l.mergeSort le) :=
    List.sublist_mergeSort htrans htotal hpw (List.filter_sublist l)
  have hsub2 : ((l.filter p).filter p).Sublist ((l.mergeSort le).filter p) :=
    hsub.filter p
  rw [List.filter_eq_self.mpr fun a ha => List.of_mem_filter ha] at hsub2
  have hlen : ((l.mergeSort le).filter p).length = (l.filter p).length :=
    ((List.mergeSort_perm l le).filter p).length_eq
  exact (hsub2.eq_of_length hlen.symm).symm

/-! ## C1: `due_parts` -/

/-- **C1**: for every stored set of parts and every reference mileage
(defaulting to `current_mileage_km` when not supplied), `due_parts` returns
exactly one view per part (a permutation of the per-part views), each view has
`due_at_km = last_change_km + interval_km` and
`remaining_km = due_at_km - reference`, the result is sorted ascending by
`remaining_km`, and the operation neither modifies nor persists the state. -/
theorem due_parts_correct (s : StateDoc) (at_mileage : Option Int) :
    (due_parts s at_mileage).ret.Perm
        (s.parts.map (mkDueView (refMileage s at_mileage))) ∧
    (∀ v ∈ (due_parts s at_mileage).ret,
        v.due_at_km = v.last_change_km + v.interval_km ∧
        v.remaining_km = v.due_at_km - refMileage s at_mileage) ∧
    (due_parts s at_mileage).ret.Pairwise
        (fun a b => a.remaining_km ≤ b.remaining_km) ∧
    refMileage s none = current_mileage s ∧
    (due_parts s at_mileage).state = s ∧
    (due_parts s at_mileage).saved = false := by
  refine ⟨List.mergeSort_perm _ _, ?_, ?_, rfl, rfl, rfl⟩
  · intro v hv
    have hv' : v ∈ s.parts.map (mkDueView (refMileage s at_mileage)) :=
      List.mem_mergeSort.mp hv
    obtain ⟨p, _, rfl⟩ := List.mem_map.mp hv'
    simp [mkDueView]
  · exact (List.sorted_mergeSort viewLE_trans viewLE_total _).imp
      (fun h => by simpa [viewLE] using h)

/-! ## C3: `add_service_record` keeps the history sorted -/

/-- Records whose `(mileage_km, date)` keys are both equal to `k` compare
`recordGE` in either order. -/
theorem recordGE_of_key_eq {k : Int × String} {a b : RecordDoc}
    (ha : ((a.mileage_km, a.date) == k) = true)
    (hb : ((b.mileage_km, b.date) == k) = true) : recordGE a b = true := by
  simp only [beq_iff_eq] at ha hb
  have hab := ha.trans hb.symm
  rw [Prod.mk.injEq] at hab
  simp only [recordGE, strLE, Bool.or_eq_true, Bool.and_eq_true, beq_iff_eq]
  right
  refine ⟨hab.1, ?_⟩
  rw [hab.2]
  exact charsLE_refl _

/-- After folding any sequence of `add_service_record` calls, the history is a
permutation of the initial history plus all inserted record dictionaries, and
the subsequence of records with any fixed `(mileage_km, date)` key is
unchanged (the repeated stable sorts never reorder equal keys). -/
theorem foldService_perm_and_filter (rs : List ServiceRecord) (s : StateDoc) :
    ((rs.foldl applyService s).service_history.Perm
        (s.service_history ++ rs.map asdictRecord)) ∧
    (∀ k : Int × String,
      (rs.foldl applyService s).service_history.filter
          (fun x => (x.mileage_km, x.date) == k) =
        (s.service_history ++ rs.map asdictRecord).filter
          (fun x => (x.mileage_km, x.date) == k)) := by
  induction rs generalizing s with
  | nil => simp
  | cons r rs ih =>
    have hstep : (r :: rs).foldl applyService s = rs.foldl applyService (applyService s r) :=
      rfl
    have hhist : (applyService s r).service_history =
        (s.service_history ++ [asdictRecord r]).mergeSort recordGE := rfl
    constructor
    · have h1 := (ih (applyService s r)).1
      rw [hstep]
      refine h1.trans ?_
      rw [hhist]
      refine (((List.mergeSort_perm _ _).append_right _).trans ?_)
      simp
    · intro k
      have h2 := (ih (applyService s r)).2 k
      rw [hstep, h2, hhist, List.filter_append,
        mergeSort_filter_eq recordGE_trans recordGE_total _
          (fun a b ha hb => recordGE_of_key_eq ha hb) _]
      rw [List.filter_append, List.filter_append, List.append_assoc]
      cases hpx : (fun x : RecordDoc => (x.mileage_km, x.date) == k) (asdictRecord r) <;>
        simp [List.filter_cons, hpx]

/-- **C3**: after each call in any sequence of `AddServiceRecord` calls, the
history is a permutation of all records added so far (none lost), sorted
descending by the pair `(mileage_km, date)` — ties in `mileage_km` broken by
the date string descending — and records with fully equal keys are not
reordered beyond that tie-break (their relative insertion order is kept). -/
theorem add_service_record_history (s : StateDoc) (rs : List ServiceRecord)
    (r : ServiceRecord) :
    (((rs ++ [r]).foldl applyService s).service_history.Perm
        (s.service_history ++ ((rs ++ [r]).map asdictRecord))) ∧
    ((rs ++ [r]).foldl applyService s).service_history.Pairwise
        (fun a b => b.mileage_km < a.mileage_km ∨
          (a.mileage_km = b.mileage_km ∧ strLE b.date a.date = true)) ∧
    (∀ k : Int × String,
      ((rs ++ [r]).foldl applyService s).service_history.filter
          (fun x => (x.mileage_km, x.date) == k) =
        (s.service_history ++ ((rs ++ [r]).map asdictRecord)).filter
          (fun x => (x.mileage_km, x.date) == k)) := by
  refine ⟨(foldService_perm_and_filter _ s).1, ?_, (foldService_perm_and_filter _ s).2⟩
  rw [List.foldl_append]
  have hhist : (applyService (rs.foldl applyService s) r).service_history =
      ((rs.foldl applyService s).service_history ++ [asdictRecord r]).mergeSort
        recordGE := rfl
  rw [List.foldl, List.foldl, hhist]
  refine (List.sorted_mergeSort recordGE_trans recordGE_total _).imp ?_
  intro a b h
  simpa [recordGE, strLE] using h

/-! ## C10: stability of the `due_parts` sort -/

/-- **C10** (implicit): the sort of `due_parts` by `remaining_km` is stable —
for any value `r` of `remaining_km`, the views whose `remaining_km` equals `r`
appear in the result in exactly the relative order of the corresponding parts
in the `parts` sequence. -/
theorem due_parts_sort_stable (s : StateDoc) (at_mileage : Option Int) (r : Int) :
    (due_parts s at_mileage).ret.filter (fun v => v.remaining_km == r) =
      (s.parts.map (mkDueView (refMileage s at_mileage))).filter
        (fun v => v.remaining_km == r) :=
  mergeSort_filter_eq viewLE_trans viewLE_total _
    (fun a b ha hb => by
      simp only [beq_iff_eq] at ha hb
      simp only [viewLE, decide_eq_true_eq, ha, hb, le_refl]) _

/-! ## C2 and C9: `add_part` (upsert) -/

theorem partMatches_asdict (p : ConsumablePart) :
    partMatches p.name (asdictPart p) = true := by
  simp [partMatches, asdictPart]

/-- `add_part` always saves and returns `()`. -/
theorem add_part_eta (s : StateDoc) (part : ConsumablePart) :
    add_part s part = ⟨(add_part s part).state, true, ()⟩ := by
  simp only [add_part]
  split <;> rfl

/-- `add_part` when some stored part matches: the first matching entry is
overwritten wholesale, in place. -/
theorem add_part_state_found (s : StateDoc) (part : ConsumablePart)
    (l₁ l₂ : List PartDoc) (a : PartDoc) (hdec : s.parts = l₁ ++ a :: l₂)
    (hl₁ : ∀ x ∈ l₁, ¬ partMatches part.name x = true)
    (hpa : partMatches part.name a = true) :
    (add_part s part).state =
      ⟨s.current_mileage_km, l₁ ++ asdictPart part :: l₂, s.service_history⟩ := by
  have hsome : (s.parts.find? (partMatches part.name)).isSome = true :=
    List.find?_isSome.mpr
      ⟨a, by rw [hdec]; exact List.mem_append_right _ (List.mem_cons_self _ _), hpa⟩
  simp only [add_part, if_pos hsome]
  rw [hdec, updateFirst_spec _ _ _ _ _ hl₁, if_pos hpa]

/-- `add_part` when no stored part matches: the new dictionary is appended. -/
theorem add_part_state_fresh (s : StateDoc) (part : ConsumablePart)
    (hnone : s.parts.find? (partMatches part.name) = none) :
    (add_part s part).state =
      ⟨s.current_mileage_km, s.parts ++ [asdictPart part], s.service_history⟩ := by
  simp [add_part, hnone]

/-- **C2**: starting from a state satisfying the uniqueness invariant,
`add_part` with a name whose normalization matches the entry at position `i`
replaces that entry wholesale (every field, position preserved); with a fresh
normalized name it appends the part at the end; in both cases the uniqueness
invariant is preserved (at most one part per normalized name remains).  The
rest of the state is untouched and the change is persisted. -/
theorem add_part_upsert (s : StateDoc) (part : ConsumablePart)
    (huniq : uniqueNames s.parts) :
    (∀ i (hi : i < s.parts.length),
        normName (s.parts[i]).name = normName part.name →
        (add_part s part).state.parts = s.parts.set i (asdictPart part)) ∧
    ((∀ q ∈ s.parts, normName q.name ≠ normName part.name) →
        (add_part s part).state.parts = s.parts ++ [asdictPart part]) ∧
    uniqueNames (add_part s part).state.parts ∧
    (add_part s part).state.current_mileage_km = s.current_mileage_km ∧
    (add_part s part).state.service_history = s.service_history ∧
    (add_part s part).saved = true := by
  refine ⟨?_, ?_, ?_, ?_, ?_, ?_⟩
  · intro i hi hname
    have hpred : partMatches part.name (s.parts[i]) = true := by
      simp [partMatches, hname]
    have hdecomp : s.parts = s.parts.take i ++ s.parts[i] :: s.parts.drop (i + 1) := by
      conv_lhs => rw [← List.take_append_drop i s.parts]
      rw [List.drop_eq_getElem_cons hi]
    have hfirst : ∀ x ∈ s.parts.take i, ¬ partMatches part.name x = true := by
      intro x hx
      have hpw := huniq
      rw [uniqueNames, hdecomp, List.pairwise_append] at hpw
      have hne := hpw.2.2 x hx (s.parts[i]) (List.mem_cons_self _ _)
      rw [hname] at hne
      simpa [partMatches] using hne
    rw [add_part_state_found s part _ _ _ hdecomp hfirst hpred]
    rw [List.set_eq_take_append_cons_drop]
    simp [hi]
  · intro hfresh
    have hnone : s.parts.find? (partMatches part.name) = none :=
      List.find?_eq_none.mpr fun q hq => by simpa [partMatches] using hfresh q hq
    rw [add_part_state_fresh s part hnone]
  · rcases hcase : s.parts.find? (partMatches part.name) with _ | a
    · have hfresh : ∀ q ∈ s.parts, ¬ partMatches part.name q = true :=
        List.find?_eq_none.mp hcase
      rw [add_part_state_fresh s part hcase]
      show uniqueNames (s.parts ++ [asdictPart part])
      rw [uniqueNames, List.pairwise_append]
      refine ⟨huniq, List.pairwise_singleton _ _, ?_⟩
      intro x hx y hy
      simp only [List.mem_singleton] at hy
      subst hy
      have := hfresh x hx
      simp only [partMatches, beq_iff_eq] at this
      simpa [asdictPart] using this
    · obtain ⟨hpa, l₁, l₂, hdec, hl₁⟩ := List.find?_eq_some.mp hcase
      have hl₁' : ∀ x ∈ l₁, ¬ partMatches part.name x = true := by
        intro x hx
        simpa using hl₁ x hx
      rw [add_part_state_found s part l₁ l₂ a hdec hl₁' hpa]
      show uniqueNames (l₁ ++ asdictPart part :: l₂)
      have hu := huniq
      rw [uniqueNames, hdec, List.pairwise_append] at hu
      obtain ⟨hu₁, hu₂, hu₃⟩ := hu
      have haname : normName a.name = normName part.name := by
        simpa [partMatches] using hpa
      rw [uniqueNames, List.pairwise_append]
      refine ⟨hu₁, ?_, ?_⟩
      · rw [List.pairwise_cons]
        refine ⟨?_, (List.pairwise_cons.mp hu₂).2⟩
        intro y hy
        have := (List.pairwise_cons.mp hu₂).1 y hy
        simpa [asdictPart, ← haname] using this
      · intro x hx y hy
        rcases List.mem_cons.mp hy with hy | hy
        · subst hy
          have := hl₁' x hx
          simp only [partMatches, beq_iff_eq] at this
          simpa [asdictPart] using this
        · exact hu₃ x hx y (List.mem_cons_of_mem _ hy)
  · rcases hcase : s.parts.find? (partMatches part.name) with _ | a <;>
      simp [add_part, hcase]
  · rcases hcase : s.parts.find? (partMatches part.name) with _ | a <;>
      simp [add_part, hcase]
  · rcases hcase : s.parts.find? (partMatches part.name) with _ | a <;>
      simp [add_part, hcase]

/-- Witness for `add_part_upsert`: a two-part store satisfying the uniqueness
invariant; upserting under the normalized name `"brake pads"` overwrites the
`"Brake Pads"` entry in place. -/
theorem add_part_upsert_witness :
    uniqueNames [⟨"Oil Filter", 10000, 5000, none⟩, ⟨"Brake Pads", 30000, 0, some "x"⟩] ∧
    normName (([⟨"Oil Filter", 10000, 5000, none⟩,
        ⟨"Brake Pads", 30000, 0, some "x"⟩] : List PartDoc)[1]).name =
      normName (⟨"brake pads", 40000, 35000, "new"⟩ : ConsumablePart).name ∧
    (add_part ⟨some 14000,
        [⟨"Oil Filter", 10000, 5000, none⟩, ⟨"Brake Pads", 30000, 0, some "x"⟩], []⟩
        ⟨"brake pads", 40000, 35000, "new"⟩).state.parts =
      [⟨"Oil Filter", 10000, 5000, none⟩, ⟨"Brake Pads", 30000, 0, some "x"⟩].set 1
        (asdictPart ⟨"brake pads", 40000, 35000, "new"⟩) :=
  ⟨by decide, by decide,
    (add_part_upsert ⟨some 14000,
        [⟨"Oil Filter", 10000, 5000, none⟩, ⟨"Brake Pads", 30000, 0, some "x"⟩], []⟩
        ⟨"brake pads", 40000, 35000, "new"⟩ (by decide)).1 1 (by decide) (by decide)⟩

/-- **C9**: `add_part` is idempotent — upserting identical field values twice
yields exactly the same outcome (state, persistence, return) as doing it once,
from every starting state. -/
theorem add_part_idempotent (s : StateDoc) (part : ConsumablePart) :
    add_part (add_part s part).state part = add_part s part := by
  rcases hcase : s.parts.find? (partMatches part.name) with _ | a
  · have hnone : ∀ q ∈ s.parts, ¬ partMatches part.name q = true :=
      List.find?_eq_none.mp hcase
    have h1 : (add_part s part).state =
        ⟨s.current_mileage_km, s.parts ++ [asdictPart part], s.service_history⟩ :=
      add_part_state_fresh s part hcase
    have h2 : (add_part (add_part s part).state part).state =
        ⟨s.current_mileage_km, s.parts ++ [asdictPart part], s.service_history⟩ := by
      rw [h1]
      have := add_part_state_found
        ⟨s.current_mileage_km, s.parts ++ [asdictPart part], s.service_history⟩ part
        s.parts [] (asdictPart part) (by simp) hnone (partMatches_asdict part)
      simpa using this
    rw [add_part_eta (add_part s part).state part, h2, add_part_eta s part, h1]
  · obtain ⟨hpa, l₁, l₂, hdec, hl₁⟩ := List.find?_eq_some.mp hcase
    have hl₁' : ∀ x ∈ l₁, ¬ partMatches part.name x = true := by
      intro x hx
      simpa using hl₁ x hx
    have h1 : (add_part s part).state =
        ⟨s.current_mileage_km, l₁ ++ asdictPart part :: l₂, s.service_history⟩ :=
      add_part_state_found s part l₁ l₂ a hdec hl₁' hpa
    have h2 : (add_part (add_part s part).state part).state =
        ⟨s.current_mileage_km, l₁ ++ asdictPart part :: l₂, s.service_history⟩ := by
      rw [h1]
      have := add_part_state_found
        ⟨s.current_mileage_km, l₁ ++ asdictPart part :: l₂, s.service_history⟩ part
        l₁ l₂ (asdictPart part) rfl hl₁' (partMatches_asdict part)
      simpa using this
    rw [add_part_eta (add_part s part).state part, h2, add_part_eta s part, h1]

/-! ## C7: unknown keys and missing optional fields -/

theorem lookupJ_append_single (fs : List (String × Json)) (k k' : String) (v : Json)
    (h : k' ≠ k) : lookupJ (fs ++ [(k, v)]) k' = lookupJ fs k' := by
  induction fs with
  | nil => simp [lookupJ, Ne.symm h]
  | cons f fs ih =>
    obtain ⟨k₀, v₀⟩ := f
    by_cases hk : k₀ = k'
    · simp [lookupJ, hk]
    · simp only [List.cons_append, lookupJ, if_neg hk]
      exact ih

theorem updateFirst_map {α β : Type} (pred : β → Bool) (f : β → β) (g : α → β)
    (pred' : α → Bool) (f' : α → α)
    (hpred : ∀ x, pred (g x) = pred' x)
    (hf : ∀ x, pred' x = true → f (g x) = g (f' x)) :
    ∀ l : List α, updateFirst pred f (l.map g) = (updateFirst pred' f' l).map g := by
  intro l
  induction l with
  | nil => rfl
  | cons x xs ih =>
    simp only [List.map_cons, updateFirst, hpred x]
    by_cases hx : pred' x = true
    · rw [if_pos hx, if_pos hx, hf x hx]
      rfl
    · rw [if_neg hx, if_neg hx, List.map_cons, ih]

theorem fillPart_matches (name : String) (p : PartDoc) :
    partMatches name (fillPart p) = partMatches name p := rfl

theorem mkDueView_fillPart (c : Int) (p : PartDoc) :
    mkDueView c (fillPart p) = fillView (mkDueView c p) := rfl

theorem fillRecord_asdict (r : ServiceRecord) :
    fillRecord (asdictRecord r) = asdictRecord r := rfl

theorem fillPart_asdict (p : ConsumablePart) :
    fillPart (asdictPart p) = asdictPart p := rfl

theorem recordGE_fillRecord (a b : RecordDoc) :
    recordGE (fillRecord a) (fillRecord b) = recordGE a b := rfl

theorem viewLE_fillView (a b : DuePartView) :
    viewLE (fillView a) (fillView b) = viewLE a b := rfl

theorem refMileage_fillState (s : StateDoc) (at_mileage : Option Int) :
    refMileage (fillState s) at_mileage = refMileage s at_mileage := by
  cases at_mileage <;> simp [refMileage, fillState, current_mileage]

theorem due_parts_ret (s : StateDoc) (at_mileage : Option Int) :
    (due_parts s at_mileage).ret =
      (s.parts.map (mkDueView (refMileage s at_mileage))).mergeSort viewLE := rfl

/-- **C7** (amended): unknown keys are ignored by the schema reads at every
level — the state, part and record dictionaries — and a missing optional
field is *not* materialized as its default at load time; instead each use
site supplies the default (`current_mileage_km` reads as `0`), and every
store operation (`set_current_mileage`, `due_parts`, `find_part`,
`change_part`, `add_part`, `add_service_record`) commutes with materializing
the §3 defaults — it behaves on a document with missing optional fields
exactly as on the defaulted document, up to the defaults appearing in the
returned views and stored dictionaries. -/
theorem optional_defaults_amended (s : StateDoc) (at_mileage : Option Int)
    (name : String) (km : Int) (notes : String) (part : ConsumablePart)
    (record : ServiceRecord) :
    (∀ fs k v, ¬ (k = "current_mileage_km" ∨ k = "parts" ∨ k = "service_history") →
        decodeState (.obj (fs ++ [(k, v)])) = decodeState (.obj fs)) ∧
    (∀ fs k v, ¬ (k = "name" ∨ k = "interval_km" ∨ k = "last_change_km" ∨ k = "notes") →
        decodePart (.obj (fs ++ [(k, v)])) = decodePart (.obj fs)) ∧
    (∀ fs k v, ¬ (k = "date" ∨ k = "mileage_km" ∨ k = "title" ∨ k = "details" ∨
          k = "cost") →
        decodeRecord (.obj (fs ++ [(k, v)])) = decodeRecord (.obj fs)) ∧
    (∀ ps hs, current_mileage ⟨none, ps, hs⟩ = 0) ∧
    (set_current_mileage (fillState s) km).state =
      fillState (set_current_mileage s km).state ∧
    (set_current_mileage (fillState s) km).saved = (set_current_mileage s km).saved ∧
    (due_parts (fillState s) at_mileage).ret = (due_parts s at_mileage).ret.map fillView ∧
    find_part (fillState s) name = (find_part s name).map fillPart ∧
    (change_part (fillState s) name km notes).state =
      fillState (change_part s name km notes).state ∧
    (change_part (fillState s) name km notes).ret = (change_part s name km notes).ret ∧
    (change_part (fillState s) name km notes).saved = (change_part s name km notes).saved ∧
    (add_part (fillState s) part).state = fillState (add_part s part).state ∧
    (add_service_record (fillState s) record).state =
      fillState (add_service_record s record).state := by
  have hfind : ∀ nm, (fillState s).parts.find? (partMatches nm) =
      Option.map fillPart (s.parts.find? (partMatches nm)) := by
    intro nm
    show (s.parts.map fillPart).find? (partMatches nm) = _
    rw [List.find?_map]
    rfl
  refine ⟨?_, ?_, ?_, fun ps hs => rfl, rfl, rfl, ?_, hfind name, ?_, ?_, ?_, ?_, ?_⟩
  · intro fs k v hk
    push_neg at hk
    simp only [decodeState,
      lookupJ_append_single fs k "parts" v (fun hc => hk.2.1 hc.symm),
      lookupJ_append_single fs k "service_history" v (fun hc => hk.2.2 hc.symm),
      lookupJ_append_single fs k "current_mileage_km" v (fun hc => hk.1 hc.symm)]
  · intro fs k v hk
    push_neg at hk
    simp only [decodePart,
      lookupJ_append_single fs k "name" v (fun hc => hk.1 hc.symm),
      lookupJ_append_single fs k "interval_km" v (fun hc => hk.2.1 hc.symm),
      lookupJ_append_single fs k "last_change_km" v (fun hc => hk.2.2.1 hc.symm),
      lookupJ_append_single fs k "notes" v (fun hc => hk.2.2.2 hc.symm)]
  · intro fs k v hk
    push_neg at hk
    simp only [decodeRecord,
      lookupJ_append_single fs k "date" v (fun hc => hk.1 hc.symm),
      lookupJ_append_single fs k "mileage_km" v (fun hc => hk.2.1 hc.symm),
      lookupJ_append_single fs k "title" v (fun hc => hk.2.2.1 hc.symm),
      lookupJ_append_single fs k "details" v (fun hc => hk.2.2.2.1 hc.symm),
      lookupJ_append_single fs k "cost" v (fun hc => hk.2.2.2.2 hc.symm)]
  · rw [due_parts_ret, due_parts_ret, refMileage_fillState]
    show ((s.parts.map fillPart).map (mkDueView (refMileage s at_mileage))).mergeSort viewLE = _
    rw [List.map_map]
    have hmap : mkDueView (refMileage s at_mileage) ∘ fillPart =
        fillView ∘ mkDueView (refMileage s at_mileage) :=
      funext (mkDueView_fillPart (refMileage s at_mileage))
    rw [hmap, ← List.map_map,
      List.map_mergeSort (fun a _ b _ => (viewLE_fillView a b).symm)]
  · rcases hcase : s.parts.find? (partMatches name) with _ | p
    · have h2 : (fillState s).parts.find? (partMatches name) = none := by
        rw [hfind name, hcase]; rfl
      simp only [change_part, hcase, h2]
    · have h2 : (fillState s).parts.find? (partMatches name) = some (fillPart p) := by
        rw [hfind name, hcase]; rfl
      simp only [change_part, hcase, h2]
      simp only [fillState, current_mileage]
      congr 1
      exact updateFirst_map _ _ fillPart _ _ (fun x => rfl)
        (fun x _ => by by_cases hnotes : notes = "" <;> simp [fillPart, hnotes]) s.parts
  · rcases hcase : s.parts.find? (partMatches name) with _ | p
    · have h2 : (fillState s).parts.find? (partMatches name) = none := by
        rw [hfind name, hcase]; rfl
      simp only [change_part, hcase, h2]
    · have h2 : (fillState s).parts.find? (partMatches name) = some (fillPart p) := by
        rw [hfind name, hcase]; rfl
      simp only [change_part, hcase, h2]
  · rcases hcase : s.parts.find? (partMatches name) with _ | p
    · have h2 : (fillState s).parts.find? (partMatches name) = none := by
        rw [hfind name, hcase]; rfl
      simp only [change_part, hcase, h2]
    · have h2 : (fillState s).parts.find? (partMatches name) = some (fillPart p) := by
        rw [hfind name, hcase]; rfl
      simp only [change_part, hcase, h2]
  · rcases hcase : s.parts.find? (partMatches part.name) with _ | p
    · have h2 : (fillState s).parts.find? (partMatches part.name) = none := by
        rw [hfind part.name, hcase]; rfl
      simp only [add_part, hcase, h2, Option.isSome_none, Bool.false_eq_true, if_false]
      simp only [fillState, current_mileage]
      congr 1
      rw [List.map_append]
      rfl
    · have h2 : (fillState s).parts.find? (partMatches part.name) = some (fillPart p) := by
        rw [hfind part.name, hcase]; rfl
      have hs1 : ((fillState s).parts.find? (partMatches part.name)).isSome = true := by
        rw [h2]; rfl
      have hs2 : (s.parts.find? (partMatches part.name)).isSome = true := by
        rw [hcase]; rfl
      simp only [add_part, hs1, hs2, if_true]
      simp only [fillState, current_mileage]
      congr 1
      exact updateFirst_map _ _ fillPart _ _ (fun x => rfl)
        (fun x _ => (fillPart_asdict part).symm) s.parts
  · simp only [add_service_record]
    simp only [fillState, current_mileage]
    congr 1
    have hfill : (s.service_history.map fillRecord) ++ [asdictRecord record] =
        (s.service_history ++ [asdictRecord record]).map fillRecord := by
      rw [List.map_append]
      rfl
    rw [hfill, ← List.map_mergeSort (fun a _ b _ => (recordGE_fillRecord a b).symm)]

/-- Witness for `optional_defaults_amended`: the unknown key `"vin"` is
tolerated at the state and record levels, on a one-part document with a
missing `notes` key. -/
theorem optional_defaults_amended_witness :
    (¬ ("vin" = "current_mileage_km" ∨ "vin" = "parts" ∨ "vin" = "service_history")) ∧
    (¬ ("vin" = "date" ∨ "vin" = "mileage_km" ∨ "vin" = "title" ∨ "vin" = "details" ∨
        "vin" = "cost")) ∧
    decodeState (.obj ([("parts", .arr []), ("service_history", .arr [])] ++
        [("vin", .str "X")])) =
      decodeState (.obj [("parts", .arr []), ("service_history", .arr [])]) ∧
    decodeRecord (.obj ([("date", .str "2024-01-01"), ("mileage_km", .num 0 0),
        ("title", .str "t")] ++ [("vin", .str "X")])) =
      decodeRecord (.obj [("date", .str "2024-01-01"), ("mileage_km", .num 0 0),
        ("title", .str "t")]) ∧
    (due_parts (fillState ⟨some 0, [⟨"oil filter", 10000, 5000, none⟩], []⟩) none).ret =
      (due_parts (⟨some 0, [⟨"oil filter", 10000, 5000, none⟩], []⟩ : StateDoc) none).ret.map
        fillView :=
  ⟨by decide, by decide,
    (optional_defaults_amended ⟨some 0, [⟨"oil filter", 10000, 5000, none⟩], []⟩ none
      "x" 0 "" ⟨"x", 0, 0, ""⟩ ⟨"2024-01-01", 0, "t", "", ⟨0, 1⟩⟩).1
      [("parts", .arr []), ("service_history", .arr [])] "vin" (.str "X") (by decide),
    (optional_defaults_amended ⟨some 0, [⟨"oil filter", 10000, 5000, none⟩], []⟩ none
      "x" 0 "" ⟨"x", 0, 0, ""⟩ ⟨"2024-01-01", 0, "t", "", ⟨0, 1⟩⟩).2.2.1
      [("date", .str "2024-01-01"), ("mileage_km", .num 0 0), ("title", .str "t")]
      "vin" (.str "X") (by decide),
    (optional_defaults_amended ⟨some 0, [⟨"oil filter", 10000, 5000, none⟩], []⟩ none
      "x" 0 "" ⟨"x", 0, 0, ""⟩ ⟨"2024-01-01", 0, "t", "", ⟨0, 1⟩⟩).2.2.2.2.2.2.1⟩

/-- **C7** (counterexample): the code does not materialize defaults on read —
on a document whose stored part lacks the `notes` key, `due_parts` returns a
view without the key, which differs from the view returned for the same
document with the default `notes = ""` stored. -/
theorem optional_defaults_counterexample :
    (due_parts (⟨some 0, [⟨"oil filter", 10000, 5000, none⟩], []⟩ : StateDoc) none).ret ≠
      (due_parts (fillState ⟨some 0, [⟨"oil filter", 10000, 5000, none⟩], []⟩) none).ret := by
  simp only [due_parts, fillState, fillPart, current_mileage, refMileage, List.map_cons,
    List.map_nil, List.mergeSort_singleton]
  decide

/-! ## Round-trip machinery: decimal numerals -/

theorem charOfNat_toNat {n : Nat} (h : n < 55296) : (Char.ofNat n).toNat = n := by
  have hv : n.isValidChar := Or.inl h
  rw [Char.ofNat, dif_pos hv]
  show (BitVec.ofNatLt n _).toNat = n
  rfl

theorem digitCh_toNat {d : Nat} (h : d < 10) : (digitCh d).toNat = 48 + d :=
  charOfNat_toNat (by omega)

theorem char_isDigit_iff (c : Char) : c.isDigit = true ↔ 48 ≤ c.toNat ∧ c.toNat ≤ 57 := by
  simp only [Char.isDigit, Bool.and_eq_true, decide_eq_true_eq]
  constructor
  · intro ⟨h1, h2⟩
    exact ⟨h1, h2⟩
  · intro ⟨h1, h2⟩
    exact ⟨h1, h2⟩

theorem digitCh_isDigit {d : Nat} (h : d < 10) : (digitCh d).isDigit = true := by
  rw [char_isDigit_iff, digitCh_toNat h]
  omega

theorem natDigs_step {n : Nat} (h : ¬ n < 10) :
    ∀ acc, natDigsAux n acc = natDigsAux (n / 10) (digitCh (n % 10) :: acc) := by
  intro acc
  conv_lhs => rw [natDigsAux]
  rw [if_neg h]

theorem natDigsAux_append (n : Nat) : ∀ acc, natDigsAux n acc = natDigs n ++ acc := by
  induction n using Nat.strong_induction_on with
  | _ n ih =>
    intro acc
    by_cases h : n < 10
    · rw [natDigs, natDigsAux, if_pos h, natDigsAux, if_pos h]
      rfl
    · have h10 : n / 10 < n := Nat.div_lt_self (by omega) (by omega)
      rw [natDigs, natDigs_step h, natDigs_step h, ih _ h10, ih _ h10]
      simp

theorem natDigs_all_digits (n : Nat) : ∀ c ∈ natDigs n, c.isDigit = true := by
  induction n using Nat.strong_induction_on with
  | _ n ih =>
    intro c hc
    by_cases h : n < 10
    · rw [natDigs, natDigsAux, if_pos h] at hc
      rcases List.mem_singleton.mp hc with rfl
      exact digitCh_isDigit h
    · have h10 : n / 10 < n := Nat.div_lt_self (by omega) (by omega)
      rw [natDigs, natDigs_step h, natDigsAux_append] at hc
      rcases List.mem_append.mp hc with hc | hc
      · exact ih _ h10 c hc
      · rcases List.mem_singleton.mp hc with rfl
        exact digitCh_isDigit (Nat.mod_lt _ (by omega))

theorem natDigs_ne_nil (n : Nat) : natDigs n ≠ [] := by
  by_cases h : n < 10
  · rw [natDigs, natDigsAux, if_pos h]
    exact List.cons_ne_nil _ _
  · rw [natDigs, natDigs_step h, natDigsAux_append]
    simp

theorem digsVal_append_single (a : List Char) (c : Char) :
    digsVal (a ++ [c]) = digsVal a * 10 + (c.toNat - 48) := by
  rw [digsVal, List.foldl_append]
  rfl

theorem digsVal_natDigs (n : Nat) : digsVal (natDigs n) = n := by
  induction n using Nat.strong_induction_on with
  | _ n ih =>
    by_cases h : n < 10
    · rw [natDigs, natDigsAux, if_pos h]
      show 0 * 10 + ((digitCh n).toNat - 48) = n
      rw [digitCh_toNat h]
      omega
    · have h10 : n / 10 < n := Nat.div_lt_self (by omega) (by omega)
      rw [natDigs, natDigs_step h, natDigsAux_append, digsVal_append_single, ih _ h10,
        digitCh_toNat (Nat.mod_lt _ (by omega))]
      omega

theorem digsVal_zeros (k : Nat) (ds : List Char) :
    digsVal (List.replicate k '0' ++ ds) = digsVal ds := by
  induction k with
  | zero => rfl
  | succ k ih =>
    rw [List.replicate_succ, List.cons_append]
    show digsVal (List.replicate k '0' ++ ds) = digsVal ds
    exact ih

theorem takeDigits_spec : ∀ (ds rest : List Char), (∀ c ∈ ds, c.isDigit = true) →
    noDigitHead rest → takeDigits (ds ++ rest) = (ds, rest) := by
  intro ds
  induction ds with
  | nil =>
    intro rest _ h2
    cases rest with
    | nil => rfl
    | cons c t =>
      rw [List.nil_append, takeDigits, if_neg h2]
  | cons d ds ih =>
    intro rest h1 h2
    rw [List.cons_append, takeDigits, if_pos (h1 d (List.mem_cons_self _ _)),
      ih rest (fun c hc => h1 c (List.mem_cons_of_mem _ hc)) h2]

theorem delimOk_noDigitHead {rest : List Char} (h : delimOk rest) : noDigitHead rest := by
  cases rest with
  | nil => trivial
  | cons c t =>
    show ¬ c.isDigit = true
    rcases h with h | h | h <;> subst h <;> decide

theorem delimOk_not_dot {c : Char} {t : List Char} (h : delimOk (c :: t)) : ¬ c = '.' := by
  rcases h with h | h | h <;> subst h <;> decide

theorem isDigit_ne_minus {c : Char} (h : c.isDigit = true) : ¬ c = '-' := by
  intro hc
  subst hc
  simp at h

theorem noDigitHead_dot (t : List Char) : noDigitHead ('.' :: t) := by
  show ¬ ('.' : Char).isDigit = true
  decide

/-- `parseNumber` on an unsigned integer numeral. -/
theorem parseNumber_int_pos (intDs rest : List Char)
    (hint : ∀ c ∈ intDs, c.isDigit = true) (hne : intDs ≠ [])
    (hrest : delimOk rest) :
    parseNumber (intDs ++ rest) = some (.num (digsVal intDs) 0, rest) := by
  rcases hshape : intDs with _ | ⟨d0, ds'⟩
  · exact absurd hshape hne
  subst hshape
  have hd0 : ¬ d0 = '-' := isDigit_ne_minus (hint d0 (List.mem_cons_self _ _))
  have htake : takeDigits ((d0 :: ds') ++ rest) = (d0 :: ds', rest) :=
    takeDigits_spec _ rest hint (delimOk_noDigitHead hrest)
  rw [List.cons_append] at htake ⊢
  simp only [parseNumber, decide_eq_true_eq, hd0, decide_eq_false hd0, Bool.false_eq_true,
    if_false, htake]
  cases rest with
  | nil => simp
  | cons c t =>
    have hc : ¬ c = '.' := delimOk_not_dot hrest
    simp [hc]

/-- `parseNumber` on a negative integer numeral. -/
theorem parseNumber_int_neg (intDs rest : List Char)
    (hint : ∀ c ∈ intDs, c.isDigit = true) (hne : intDs ≠ [])
    (hrest : delimOk rest) :
    parseNumber ('-' :: (intDs ++ rest)) =
      some (.num (-(digsVal intDs : Int)) 0, rest) := by
  rcases hshape : intDs with _ | ⟨d0, ds'⟩
  · exact absurd hshape hne
  subst hshape
  have htake : takeDigits ((d0 :: ds') ++ rest) = (d0 :: ds', rest) :=
    takeDigits_spec _ rest hint (delimOk_noDigitHead hrest)
  rw [List.cons_append] at htake
  simp only [parseNumber, decide_eq_true_eq, List.tail_cons, if_pos rfl, decide_eq_true_iff,
    reduceIte, List.cons_append, htake]
  cases rest with
  | nil => simp
  | cons c t =>
    have hc : ¬ c = '.' := delimOk_not_dot hrest
    simp [hc]

/-- `parseNumber` on an unsigned decimal numeral. -/
theorem parseNumber_dec_pos (intDs fracDs rest : List Char)
    (hint : ∀ c ∈ intDs, c.isDigit = true) (hne : intDs ≠ [])
    (hfrac : ∀ c ∈ fracDs, c.isDigit = true) (hfne : fracDs ≠ [])
    (hrest : delimOk rest) :
    parseNumber (intDs ++ '.' :: (fracDs ++ rest)) =
      some (.num (digsVal (intDs ++ fracDs)) fracDs.length, rest) := by
  rcases hshape : intDs with _ | ⟨d0, ds'⟩
  · exact absurd hshape hne
  subst hshape
  rcases hfshape : fracDs with _ | ⟨f0, fs'⟩
  · exact absurd hfshape hfne
  subst hfshape
  have hd0 : ¬ d0 = '-' := isDigit_ne_minus (hint d0 (List.mem_cons_self _ _))
  have htake1 : takeDigits ((d0 :: ds') ++ '.' :: ((f0 :: fs') ++ rest)) =
      (d0 :: ds', '.' :: ((f0 :: fs') ++ rest)) :=
    takeDigits_spec _ _ hint (noDigitHead_dot _)
  have htake2 : takeDigits ((f0 :: fs') ++ rest) = (f0 :: fs', rest) :=
    takeDigits_spec _ rest hfrac (delimOk_noDigitHead hrest)
  simp only [List.cons_append] at htake1 htake2 ⊢
  simp only [parseNumber, decide_eq_true_eq, decide_eq_false hd0, Bool.false_eq_true,
    if_false, List.cons_append, htake1, if_pos rfl, reduceIte, htake2]
  simp

/-- `parseNumber` on a negative decimal numeral. -/
theorem parseNumber_dec_neg (intDs fracDs rest : List Char)
    (hint : ∀ c ∈ intDs, c.isDigit = true) (hne : intDs ≠ [])
    (hfrac : ∀ c ∈ fracDs, c.isDigit = true) (hfne : fracDs ≠ [])
    (hrest : delimOk rest) :
    parseNumber ('-' :: (intDs ++ '.' :: (fracDs ++ rest))) =
      some (.num (-(digsVal (intDs ++ fracDs) : Int)) fracDs.length, rest) := by
  rcases hshape : intDs with _ | ⟨d0, ds'⟩
  · exact absurd hshape hne
  subst hshape
  rcases hfshape : fracDs with _ | ⟨f0, fs'⟩
  · exact absurd hfshape hfne
  subst hfshape
  have htake1 : takeDigits ((d0 :: ds') ++ '.' :: ((f0 :: fs') ++ rest)) =
      (d0 :: ds', '.' :: ((f0 :: fs') ++ rest)) :=
    takeDigits_spec _ _ hint (noDigitHead_dot _)
  have htake2 : takeDigits ((f0 :: fs') ++ rest) = (f0 :: fs', rest) :=
    takeDigits_spec _ rest hfrac (delimOk_noDigitHead hrest)
  simp only [List.cons_append] at htake1 htake2
  simp only [parseNumber, decide_eq_true_eq, List.tail_cons, if_pos rfl, reduceIte,
    List.cons_append, htake1, htake2]
  simp

/-- Parsing inverts the serialization of a number whenever the numeral is
followed by a delimiter. -/
theorem parseNumber_render (m : Int) (e : Nat) (rest : List Char) (hrest : delimOk rest) :
    parseNumber (renderNum m e ++ rest) = some (.num m e, rest) := by
  have hdsne : natDigs m.natAbs ≠ [] := natDigs_ne_nil m.natAbs
  have hdigits : ∀ c ∈ List.replicate (e + 1 - (natDigs m.natAbs).length) '0' ++
      natDigs m.natAbs, c.isDigit = true := by
    intro c hc
    rcases List.mem_append.mp hc with hc | hc
    · rcases List.eq_of_mem_replicate hc with rfl
      decide
    · exact natDigs_all_digits _ c hc
  have hds1 : 1 ≤ (natDigs m.natAbs).length := by
    rcases h : natDigs m.natAbs with _ | ⟨c, t⟩
    · exact absurd h hdsne
    · simp
  by_cases he : e = 0
  · subst he
    have hpad0 : List.replicate (0 + 1 - (natDigs m.natAbs).length) '0' ++ natDigs m.natAbs =
        natDigs m.natAbs := by
      have h0 : 0 + 1 - (natDigs m.natAbs).length = 0 := by omega
      rw [h0]
      rfl
    by_cases hm : m < 0
    · have hstep : renderNum m 0 ++ rest = '-' :: (natDigs m.natAbs ++ rest) := by
        rw [renderNum]
        simp only [if_pos rfl, hpad0, if_pos hm]
        rfl
      rw [hstep, parseNumber_int_neg _ rest (natDigs_all_digits _) hdsne hrest,
        digsVal_natDigs]
      have hv : -((m.natAbs : Int)) = m := by omega
      rw [hv]
    · have hstep : renderNum m 0 ++ rest = natDigs m.natAbs ++ rest := by
        rw [renderNum]
        simp only [if_pos rfl, hpad0, if_neg hm]
        rfl
      rw [hstep, parseNumber_int_pos _ rest (natDigs_all_digits _) hdsne hrest,
        digsVal_natDigs]
      have hv : ((m.natAbs : Int)) = m := by omega
      rw [hv]
  · set padded := List.replicate (e + 1 - (natDigs m.natAbs).length) '0' ++ natDigs m.natAbs
      with hpadded
    have hlen : e + 1 ≤ padded.length := by
      rw [hpadded, List.length_append, List.length_replicate]
      omega
    have hval : digsVal padded = m.natAbs := by
      rw [hpadded, digsVal_zeros, digsVal_natDigs]
    have hint : ∀ c ∈ padded.take (padded.length - e), c.isDigit = true := fun c hc =>
      hdigits c (List.mem_of_mem_take hc)
    have hfrac : ∀ c ∈ padded.drop (padded.length - e), c.isDigit = true := fun c hc =>
      hdigits c (List.mem_of_mem_drop hc)
    have hintlen : (padded.take (padded.length - e)).length = padded.length - e := by
      rw [List.length_take]
      omega
    have hfraclen : (padded.drop (padded.length - e)).length = e := by
      rw [List.length_drop]
      omega
    have hintne : padded.take (padded.length - e) ≠ [] := by
      intro hc
      have hlc := congrArg List.length hc
      rw [hintlen] at hlc
      simp at hlc
      omega
    have hfracne : padded.drop (padded.length - e) ≠ [] := by
      intro hc
      have hlc := congrArg List.length hc
      rw [hfraclen] at hlc
      simp at hlc
      omega
    by_cases hm : m < 0
    · have hstep : renderNum m e ++ rest = '-' ::
          (padded.take (padded.length - e) ++ '.' :: (padded.drop (padded.length - e) ++ rest)) := by
        rw [renderNum]
        simp only [if_neg he, if_pos hm, ← hpadded]
        simp [List.append_assoc]
      rw [hstep, parseNumber_dec_neg _ _ rest hint hintne hfrac hfracne hrest,
        List.take_append_drop, hval, hfraclen]
      have hv : -((m.natAbs : Int)) = m := by omega
      rw [hv]
    · have hstep : renderNum m e ++ rest =
          padded.take (padded.length - e) ++ '.' :: (padded.drop (padded.length - e) ++ rest) := by
        rw [renderNum]
        simp only [if_neg he, if_neg hm, ← hpadded]
        simp [List.append_assoc]
      rw [hstep, parseNumber_dec_pos _ _ rest hint hintne hfrac hfracne hrest,
        List.take_append_drop, hval, hfraclen]
      have hv : ((m.natAbs : Int)) = m := by omega
      rw [hv]

/-! ## Round-trip machinery: string literals -/

theorem charOfNat_toNat_eq (c : Char) (h : c.toNat < 55296) : Char.ofNat c.toNat = c := by
  have hv : c.toNat.isValidChar := Or.inl h
  rw [Char.ofNat, dif_pos hv]
  apply Char.eq_of_val_eq
  apply UInt32.eq_of_val_eq
  rfl

theorem parseHex_hexDigit {n : Nat} (h : n < 16) : parseHex (hexDigit n) = some n := by
  interval_cases n <;> decide

theorem escapeChars_cons (c : Char) (cs : List Char) :
    escapeChars (c :: cs) = escapeChar c ++ escapeChars cs := by
  simp [escapeChars]

theorem parseStrBody_escapeChar (c : Char) (t : List Char) :
    parseStrBody (escapeChar c ++ t) = consCont c (parseStrBody t) := by
  by_cases h1 : c = '"'
  · subst h1
    rw [show escapeChar '"' ++ t = '\\' :: '"' :: t from rfl, parseStrBody.eq_def]
    rfl
  by_cases h2 : c = '\\'
  · subst h2
    rw [show escapeChar '\\' ++ t = '\\' :: '\\' :: t from rfl, parseStrBody.eq_def]
    rfl
  by_cases h3 : c = '\n'
  · subst h3
    rw [show escapeChar '\n' ++ t = '\\' :: 'n' :: t from rfl, parseStrBody.eq_def]
    rfl
  by_cases h4 : c = '\t'
  · subst h4
    rw [show escapeChar '\t' ++ t = '\\' :: 't' :: t from rfl, parseStrBody.eq_def]
    rfl
  by_cases h5 : c = '\r'
  · subst h5
    rw [show escapeChar '\r' ++ t = '\\' :: 'r' :: t from rfl, parseStrBody.eq_def]
    rfl
  by_cases h6 : c.toNat = 8
  · have hc : c = Char.ofNat 8 := by
      rw [← h6]
      exact (charOfNat_toNat_eq c (by omega)).symm
    subst hc
    rw [show escapeChar (Char.ofNat 8) ++ t = '\\' :: 'b' :: t from rfl, parseStrBody.eq_def]
    rfl
  by_cases h7 : c.toNat = 12
  · have hc : c = Char.ofNat 12 := by
      rw [← h7]
      exact (charOfNat_toNat_eq c (by omega)).symm
    subst hc
    rw [show escapeChar (Char.ofNat 12) ++ t = '\\' :: 'f' :: t from rfl, parseStrBody.eq_def]
    rfl
  by_cases h8 : c.toNat < 32
  · have hshape : escapeChar c ++ t =
        '\\' :: 'u' :: '0' :: '0' :: hexDigit (c.toNat / 16) :: hexDigit (c.toNat % 16) :: t := by
      simp only [escapeChar, if_neg h1, if_neg h2, if_neg h3, if_neg h4, if_neg h5, if_neg h6,
        if_neg h7, if_pos h8, List.cons_append, List.nil_append]
    rw [hshape, parseStrBody.eq_def]
    show (match parseHex '0', parseHex '0', parseHex (hexDigit (c.toNat / 16)),
        parseHex (hexDigit (c.toNat % 16)) with
      | some a, some b, some c2, some d =>
        consCont (Char.ofNat (a * 4096 + b * 256 + c2 * 16 + d)) (parseStrBody t)
      | _, _, _, _ => none) = _
    rw [parseHex_hexDigit (show c.toNat / 16 < 16 by omega),
      parseHex_hexDigit (Nat.mod_lt _ (show 0 < 16 by omega)),
      show parseHex '0' = some 0 from by decide]
    show consCont (Char.ofNat (0 * 4096 + 0 * 256 + c.toNat / 16 * 16 + c.toNat % 16))
        (parseStrBody t) = _
    rw [show 0 * 4096 + 0 * 256 + c.toNat / 16 * 16 + c.toNat % 16 = c.toNat from by omega,
      charOfNat_toNat_eq c (by omega)]
  · have hshape : escapeChar c ++ t = c :: t := by
      simp only [escapeChar, if_neg h1, if_neg h2, if_neg h3, if_neg h4, if_neg h5, if_neg h6,
        if_neg h7, if_neg h8, List.cons_append, List.nil_append]
    rw [hshape, parseStrBody.eq_def]
    show (if c = '"' then some ([], t) else if c = '\\' then _ else consCont c (parseStrBody t)) = _
    rw [if_neg h1, if_neg h2]

theorem parseStrBody_escapes (cs : List Char) : ∀ rest : List Char,
    parseStrBody (escapeChars cs ++ '"' :: rest) = some (cs, rest) := by
  induction cs with
  | nil =>
    intro rest
    show parseStrBody ('"' :: rest) = some ([], rest)
    rw [parseStrBody.eq_def]
    rfl
  | cons c cs ih =>
    intro rest
    rw [escapeChars_cons, List.append_assoc, parseStrBody_escapeChar, ih rest]
    rfl

/-! ## Round-trip machinery: token head shapes and whitespace -/

theorem isWs_iff (c : Char) : isWs c = true ↔ c = ' ' ∨ c = '\n' ∨ c = '\t' ∨ c = '\r' := by
  simp [isWs, Bool.or_eq_true, decide_eq_true_eq, or_assoc]

theorem isDigit_facts {c : Char} (h : c.isDigit = true) :
    isWs c = false ∧ ¬ c = '"' ∧ ¬ c = '[' ∧ ¬ c = '{' ∧ ¬ c = ']' ∧ ¬ c = '}' ∧ ¬ c = ',' := by
  refine ⟨?_, ?_, ?_, ?_, ?_, ?_, ?_⟩
  · by_contra hws
    have hws' : isWs c = true := by
      cases hw : isWs c
      · exact absurd hw hws
      · rfl
    rcases (isWs_iff c).mp hws' with rfl | rfl | rfl | rfl <;> simp at h
  all_goals intro hc
  all_goals subst hc
  all_goals simp at h

theorem renderNum_head (m : Int) (e : Nat) :
    ∃ c t, renderNum m e = c :: t ∧ (c = '-' ∨ c.isDigit = true) := by
  obtain ⟨p0, pt, hpad⟩ : ∃ p0 pt,
      List.replicate (e + 1 - (natDigs m.natAbs).length) '0' ++ natDigs m.natAbs = p0 :: pt := by
    obtain ⟨d0, ds', hds⟩ := List.exists_cons_of_ne_nil (natDigs_ne_nil m.natAbs)
    cases hrep : List.replicate (e + 1 - (natDigs m.natAbs).length) '0' with
    | nil => exact ⟨d0, ds', by simp [hds]⟩
    | cons r0 rt => exact ⟨r0, rt ++ natDigs m.natAbs, rfl⟩
  have hp0 : p0.isDigit = true := by
    have hmem : p0 ∈ List.replicate (e + 1 - (natDigs m.natAbs).length) '0' ++
        natDigs m.natAbs := by
      rw [hpad]
      exact List.mem_cons_self _ _
    rcases List.mem_append.mp hmem with hc | hc
    · rcases List.eq_of_mem_replicate hc with rfl
      decide
    · exact natDigs_all_digits _ _ hc
  by_cases he : e = 0
  · subst he
    by_cases hm : m < 0
    · refine ⟨'-', p0 :: pt, ?_, Or.inl rfl⟩
      rw [renderNum]
      simp only [if_pos rfl, if_pos hm, hpad]
      rfl
    · refine ⟨p0, pt, ?_, Or.inr hp0⟩
      rw [renderNum]
      simp only [if_pos rfl, if_neg hm, List.nil_append]
      exact hpad
  · by_cases hm : m < 0
    · refine ⟨'-', (p0 :: pt).take ((p0 :: pt).length - e) ++
          '.' :: (p0 :: pt).drop ((p0 :: pt).length - e), ?_, Or.inl rfl⟩
      rw [renderNum]
      simp only [if_neg he, if_pos hm, hpad]
      rfl
    · have hds1 : 1 ≤ (natDigs m.natAbs).length := by
        obtain ⟨d0, ds', hds⟩ := List.exists_cons_of_ne_nil (natDigs_ne_nil m.natAbs)
        rw [hds]
        simp
      have hlen : e + 1 ≤ (p0 :: pt).length := by
        rw [← hpad, List.length_append, List.length_replicate]
        omega
      obtain ⟨k, hk⟩ : ∃ k, (p0 :: pt).length - e = k + 1 :=
        ⟨(p0 :: pt).length - e - 1, by simp at hlen ⊢; omega⟩
      refine ⟨p0, pt.take k ++ '.' :: (p0 :: pt).drop ((p0 :: pt).length - e),
        ?_, Or.inr hp0⟩
      rw [renderNum]
      simp only [if_neg he, if_neg hm, List.nil_append, hpad, hk, List.take_succ_cons]
      rfl

theorem dumpJson_head (d : Json) :
    ∃ c t, dumpJson d = c :: t ∧
      (c = '"' ∨ c = '[' ∨ c = '{' ∨ c = '-' ∨ c.isDigit = true) := by
  cases d with
  | num m e =>
    obtain ⟨c, t, hshape, hc⟩ := renderNum_head m e
    exact ⟨c, t, hshape, by tauto⟩
  | str s => exact ⟨'"', _, rfl, Or.inl rfl⟩
  | arr xs => exact ⟨'[', _, rfl, Or.inr (Or.inl rfl)⟩
  | obj fs => exact ⟨'{', _, rfl, Or.inr (Or.inr (Or.inl rfl))⟩

theorem valHead_facts {c : Char}
    (h : c = '"' ∨ c = '[' ∨ c = '{' ∨ c = '-' ∨ c.isDigit = true) :
    isWs c = false ∧ ¬ c = ']' ∧ ¬ c = '}' ∧ ¬ c = ',' := by
  rcases h with rfl | rfl | rfl | rfl | h
  · exact ⟨by decide, by decide, by decide, by decide⟩
  · exact ⟨by decide, by decide, by decide, by decide⟩
  · exact ⟨by decide, by decide, by decide, by decide⟩
  · exact ⟨by decide, by decide, by decide, by decide⟩
  · obtain ⟨h1, _, _, _, h5, h6, h7⟩ := isDigit_facts h
    exact ⟨h1, h5, h6, h7⟩

theorem numHead_facts {c : Char} (h : c = '-' ∨ c.isDigit = true) :
    isWs c = false ∧ ¬ c = '"' ∧ ¬ c = '[' ∧ ¬ c = '{' := by
  rcases h with rfl | h
  · exact ⟨by decide, by decide, by decide, by decide⟩
  · obtain ⟨h1, h2, h3, h4, _, _, _⟩ := isDigit_facts h
    exact ⟨h1, h2, h3, h4⟩

theorem skipWs_not_ws {c : Char} (t : List Char) (h : isWs c = false) :
    skipWs (c :: t) = c :: t := by
  rw [skipWs, if_neg (by simp [h])]

theorem skipWs_ws_cons {c : Char} (t : List Char) (h : isWs c = true) :
    skipWs (c :: t) = skipWs t := by
  rw [skipWs, if_pos (by simp [h])]

theorem parseVal_ws (f : Nat) {c : Char} (t : List Char) (h : isWs c = true) :
    parseVal f (c :: t) = parseVal f t := by
  cases f with
  | zero => rw [parseVal.eq_def, parseVal.eq_def]
  | succ f =>
    rw [parseVal.eq_def, parseVal.eq_def]
    show (match skipWs (c :: t) with
      | [] => none
      | c :: rest => parseValCore f c rest) =
      (match skipWs t with
      | [] => none
      | c :: rest => parseValCore f c rest)
    rw [skipWs_ws_cons t h]

theorem parseVal_succ_cons (f : Nat) {cs : List Char} {c : Char} {rest : List Char}
    (h : skipWs cs = c :: rest) : parseVal (f + 1) cs = parseValCore f c rest := by
  rw [parseVal.eq_def]
  show (match skipWs cs with
    | [] => none
    | c :: rest => parseValCore f c rest) = _
  rw [h]

theorem parseElems_succ_cons (f : Nat) {cs : List Char} {c : Char} {rest : List Char}
    (h : skipWs cs = c :: rest) :
    parseElems (f + 1) cs =
      if c = ']' then some ([], rest) else parseElemsTail f (parseVal f (c :: rest)) := by
  rw [parseElems.eq_def]
  show (match skipWs cs with
    | [] => none
    | c :: rest =>
      if c = ']' then some ([], rest) else parseElemsTail f (parseVal f (c :: rest))) = _
  rw [h]

theorem parseElemsRest_succ_cons (f : Nat) {cs : List Char} {c : Char} {rest : List Char}
    (h : skipWs cs = c :: rest) :
    parseElemsRest (f + 1) cs =
      if c = ']' then some ([], rest)
      else if c = ',' then parseElemsTail f (parseVal f rest)
      else none := by
  rw [parseElemsRest.eq_def]
  show (match skipWs cs with
    | [] => none
    | c :: rest =>
      if c = ']' then some ([], rest)
      else if c = ',' then parseElemsTail f (parseVal f rest)
      else none) = _
  rw [h]

theorem parseFields_succ_cons (f : Nat) {cs : List Char} {c : Char} {rest : List Char}
    (h : skipWs cs = c :: rest) :
    parseFields (f + 1) cs =
      if c = '}' then some ([], rest)
      else if c = '"' then keyWrap f (parseStrBody rest)
      else none := by
  rw [parseFields.eq_def]
  show (match skipWs cs with
    | [] => none
    | c :: rest =>
      if c = '}' then some ([], rest)
      else if c = '"' then keyWrap f (parseStrBody rest)
      else none) = _
  rw [h]

theorem parseFieldsRest_succ_cons (f : Nat) {cs : List Char} {c : Char} {rest : List Char}
    (h : skipWs cs = c :: rest) :
    parseFieldsRest (f + 1) cs =
      if c = '}' then some ([], rest)
      else if c = ',' then parseFieldsRestComma f rest
      else none := by
  rw [parseFieldsRest.eq_def]
  show (match skipWs cs with
    | [] => none
    | c :: rest =>
      if c = '}' then some ([], rest)
      else if c = ',' then parseFieldsRestComma f rest
      else none) = _
  rw [h]

theorem parseFieldsAfterKey_cons (f : Nat) (k : List Char) {cs : List Char} {c : Char}
    {rest : List Char} (h : skipWs cs = c :: rest) :
    parseFieldsAfterKey f k cs =
      if c = ':' then parseFieldsTail f k (parseVal f rest) else none := by
  rw [parseFieldsAfterKey.eq_def]
  show (match skipWs cs with
    | [] => none
    | c :: rest => if c = ':' then parseFieldsTail f k (parseVal f rest) else none) = _
  rw [h]

theorem parseFieldsRestComma_cons (f : Nat) {cs : List Char} {c : Char} {rest : List Char}
    (h : skipWs cs = c :: rest) :
    parseFieldsRestComma f cs =
      if c = '"' then keyWrap f (parseStrBody rest) else none := by
  rw [parseFieldsRestComma.eq_def]
  show (match skipWs cs with
    | [] => none
    | c :: rest => if c = '"' then keyWrap f (parseStrBody rest) else none) = _
  rw [h]

theorem parseElemsTail_some (f : Nat) (x : Json) (r : List Char) :
    parseElemsTail f (some (x, r)) = consElem x (parseElemsRest f r) := by
  rw [parseElemsTail.eq_def]

theorem keyWrap_some (f : Nat) (k : List Char) (r : List Char) :
    keyWrap f (some (k, r)) = parseFieldsAfterKey f k r := by
  rw [keyWrap.eq_def]

theorem parseFieldsTail_some (f : Nat) (k : List Char) (v : Json) (r : List Char) :
    parseFieldsTail f k (some (v, r)) = consField (String.mk k) v (parseFieldsRest f r) := by
  rw [parseFieldsTail.eq_def]

theorem delimOk_dumpElemsRest (ys : List Json) (rest : List Char) :
    delimOk (dumpElemsRest ys ++ ']' :: rest) := by
  cases ys with
  | nil => exact Or.inr (Or.inl rfl)
  | cons y ys => exact Or.inl rfl

theorem delimOk_dumpFieldsRest (fs : List (String × Json)) (rest : List Char) :
    delimOk (dumpFieldsRest fs ++ '}' :: rest) := by
  cases fs with
  | nil => exact Or.inr (Or.inr rfl)
  | cons f fs =>
    obtain ⟨k, v⟩ := f
    exact Or.inl rfl

theorem one_le_wJ (d : Json) : 1 ≤ wJ d := by
  cases d <;> simp [wJ]

theorem one_le_wE (xs : List Json) : 1 ≤ wE xs := by
  cases xs <;> simp [wE]

theorem one_le_wF (fs : List (String × Json)) : 1 ≤ wF fs := by
  cases fs with
  | nil => simp [wF]
  | cons f fs =>
    obtain ⟨k, v⟩ := f
    simp [wF]

/-- The central lemma: at every fuel level, each parser inverts the
corresponding serializer (given enough fuel and a legal delimiter). -/
theorem parse_dump_roundtrip : ∀ f : Nat,
    (∀ (d : Json) (rest : List Char), wJ d ≤ f → delimOk rest →
      parseVal f (dumpJson d ++ rest) = some (d, rest)) ∧
    (∀ (xs : List Json) (rest : List Char), wE xs ≤ f →
      parseElems f (dumpElems xs ++ ']' :: rest) = some (xs, rest)) ∧
    (∀ (xs : List Json) (rest : List Char), wE xs ≤ f →
      parseElemsRest f (dumpElemsRest xs ++ ']' :: rest) = some (xs, rest)) ∧
    (∀ (fs : List (String × Json)) (rest : List Char), wF fs ≤ f →
      parseFields f (dumpFields fs ++ '}' :: rest) = some (fs, rest)) ∧
    (∀ (fs : List (String × Json)) (rest : List Char), wF fs ≤ f →
      parseFieldsRest f (dumpFieldsRest fs ++ '}' :: rest) = some (fs, rest)) := by
  intro f
  induction f with
  | zero =>
    refine ⟨fun d _ hw _ => absurd hw (by have := one_le_wJ d; omega),
      fun xs _ hw => absurd hw (by have := one_le_wE xs; omega),
      fun xs _ hw => absurd hw (by have := one_le_wE xs; omega),
      fun fs _ hw => absurd hw (by have := one_le_wF fs; omega),
      fun fs _ hw => absurd hw (by have := one_le_wF fs; omega)⟩
  | succ f ih =>
    obtain ⟨ihV, ihE, ihER, ihF, ihFR⟩ := ih
    refine ⟨?_, ?_, ?_, ?_, ?_⟩
    · intro d rest hw hrest
      cases d with
      | num m e =>
        obtain ⟨c, t, hshape, hhead⟩ := renderNum_head m e
        obtain ⟨hws, hq, hlb, hob⟩ := numHead_facts hhead
        have hsk : skipWs (dumpJson (.num m e) ++ rest) = c :: (t ++ rest) := by
          rw [show dumpJson (.num m e) = renderNum m e from rfl, hshape, List.cons_append]
          exact skipWs_not_ws _ hws
        rw [parseVal_succ_cons f hsk, parseValCore.eq_def, if_neg hq, if_neg hlb, if_neg hob]
        rw [show c :: (t ++ rest) = (c :: t) ++ rest from rfl, ← hshape]
        exact parseNumber_render m e rest hrest
      | str s =>
        have hsk : skipWs (dumpJson (.str s) ++ rest) =
            '"' :: (escapeChars s.data ++ '"' :: rest) := by
          rw [show dumpJson (.str s) ++ rest =
            '"' :: (escapeChars s.data ++ '"' :: rest) by
              rw [show dumpJson (.str s) = '"' :: escapeChars s.data ++ ['"'] from rfl]
              simp]
          exact skipWs_not_ws _ (by decide)
        rw [parseVal_succ_cons f hsk, parseValCore.eq_def, if_pos rfl,
          parseStrBody_escapes s.data rest]
        rfl
      | arr xs =>
        have hw' : wE xs ≤ f := by
          rw [wJ] at hw
          omega
        have hsk : skipWs (dumpJson (.arr xs) ++ rest) =
            '[' :: (dumpElems xs ++ ']' :: rest) := by
          rw [show dumpJson (.arr xs) ++ rest = '[' :: (dumpElems xs ++ ']' :: rest) by
            rw [show dumpJson (.arr xs) = '[' :: dumpElems xs ++ [']'] from rfl]
            simp]
          exact skipWs_not_ws _ (by decide)
        rw [parseVal_succ_cons f hsk, parseValCore.eq_def, if_neg (by decide),
          if_pos rfl, ihE xs rest hw']
        rfl
      | obj fs =>
        have hw' : wF fs ≤ f := by
          rw [wJ] at hw
          omega
        have hsk : skipWs (dumpJson (.obj fs) ++ rest) =
            '{' :: (dumpFields fs ++ '}' :: rest) := by
          rw [show dumpJson (.obj fs) ++ rest = '{' :: (dumpFields fs ++ '}' :: rest) by
            rw [show dumpJson (.obj fs) = '{' :: dumpFields fs ++ ['}'] from rfl]
            simp]
          exact skipWs_not_ws _ (by decide)
        rw [parseVal_succ_cons f hsk, parseValCore.eq_def, if_neg (by decide),
          if_neg (by decide), if_pos rfl, ihF fs rest hw']
        rfl
    · intro xs rest hw
      cases xs with
      | nil =>
        have hsk : skipWs (dumpElems [] ++ ']' :: rest) = ']' :: rest := by
          rw [show dumpElems ([] : List Json) = [] from rfl, List.nil_append]
          exact skipWs_not_ws _ (by decide)
        rw [parseElems_succ_cons f hsk, if_pos rfl]
      | cons x xs' =>
        have hwx : wJ x ≤ f := by
          rw [wE] at hw
          omega
        have hwxs : wE xs' ≤ f := by
          rw [wE] at hw
          omega
        obtain ⟨c, t, hshape, hhead⟩ := dumpJson_head x
        obtain ⟨hws, hrb, hob, hcm⟩ := valHead_facts hhead
        have hassoc : dumpElems (x :: xs') ++ ']' :: rest =
            c :: (t ++ (dumpElemsRest xs' ++ ']' :: rest)) := by
          rw [show dumpElems (x :: xs') = dumpJson x ++ dumpElemsRest xs' from rfl, hshape]
          simp
        have hsk : skipWs (dumpElems (x :: xs') ++ ']' :: rest) =
            c :: (t ++ (dumpElemsRest xs' ++ ']' :: rest)) := by
          rw [hassoc]
          exact skipWs_not_ws _ hws
        rw [parseElems_succ_cons f hsk, if_neg hrb,
          show c :: (t ++ (dumpElemsRest xs' ++ ']' :: rest)) =
            dumpJson x ++ (dumpElemsRest xs' ++ ']' :: rest) by rw [hshape]; rfl,
          ihV x _ hwx (delimOk_dumpElemsRest xs' rest),
          parseElemsTail_some f x _, ihER xs' rest hwxs]
        rfl
    · intro xs rest hw
      cases xs with
      | nil =>
        have hsk : skipWs (dumpElemsRest [] ++ ']' :: rest) = ']' :: rest := by
          rw [show dumpElemsRest ([] : List Json) = [] from rfl, List.nil_append]
          exact skipWs_not_ws _ (by decide)
        rw [parseElemsRest_succ_cons f hsk, if_pos rfl]
      | cons y ys =>
        have hwy : wJ y ≤ f := by
          rw [wE] at hw
          omega
        have hwys : wE ys ≤ f := by
          rw [wE] at hw
          omega
        have hsk : skipWs (dumpElemsRest (y :: ys) ++ ']' :: rest) =
            ',' :: (' ' :: (dumpJson y ++ (dumpElemsRest ys ++ ']' :: rest))) := by
          rw [show dumpElemsRest (y :: ys) ++ ']' :: rest =
            ',' :: (' ' :: (dumpJson y ++ (dumpElemsRest ys ++ ']' :: rest))) by
              rw [show dumpElemsRest (y :: ys) =
                ',' :: ' ' :: (dumpJson y ++ dumpElemsRest ys) from rfl]
              simp]
          exact skipWs_not_ws _ (by decide)
        rw [parseElemsRest_succ_cons f hsk, if_neg (by decide), if_pos rfl,
          parseVal_ws f _ (by decide),
          ihV y _ hwy (delimOk_dumpElemsRest ys rest),
          parseElemsTail_some f y _, ihER ys rest hwys]
        rfl
    · intro fs rest hw
      cases fs with
      | nil =>
        have hsk : skipWs (dumpFields [] ++ '}' :: rest) = '}' :: rest := by
          rw [show dumpFields ([] : List (String × Json)) = [] from rfl, List.nil_append]
          exact skipWs_not_ws _ (by decide)
        rw [parseFields_succ_cons f hsk, if_pos rfl]
      | cons kv fs' =>
        obtain ⟨k, v⟩ := kv
        have hwv : wJ v ≤ f := by
          rw [wF] at hw
          omega
        have hwfs : wF fs' ≤ f := by
          rw [wF] at hw
          omega
        have hsk : skipWs (dumpFields ((k, v) :: fs') ++ '}' :: rest) =
            '"' :: (escapeChars k.data ++ '"' ::
              (':' :: (' ' :: (dumpJson v ++ (dumpFieldsRest fs' ++ '}' :: rest))))) := by
          rw [show dumpFields ((k, v) :: fs') ++ '}' :: rest =
            '"' :: (escapeChars k.data ++ '"' ::
              (':' :: (' ' :: (dumpJson v ++ (dumpFieldsRest fs' ++ '}' :: rest))))) by
              rw [show dumpFields ((k, v) :: fs') =
                renderStr k ++ ':' :: ' ' :: dumpJson v ++ dumpFieldsRest fs' from rfl,
                renderStr]
              simp]
          exact skipWs_not_ws _ (by decide)
        rw [parseFields_succ_cons f hsk, if_neg (by decide), if_pos rfl,
          parseStrBody_escapes k.data _, keyWrap_some f _ _,
          parseFieldsAfterKey_cons f k.data (skipWs_not_ws _ (by decide)), if_pos rfl,
          parseVal_ws f _ (by decide),
          ihV v _ hwv (delimOk_dumpFieldsRest fs' rest),
          parseFieldsTail_some f k.data v _, ihFR fs' rest hwfs]
        rfl
    · intro fs rest hw
      cases fs with
      | nil =>
        have hsk : skipWs (dumpFieldsRest [] ++ '}' :: rest) = '}' :: rest := by
          rw [show dumpFieldsRest ([] : List (String × Json)) = [] from rfl, List.nil_append]
          exact skipWs_not_ws _ (by decide)
        rw [parseFieldsRest_succ_cons f hsk, if_pos rfl]
      | cons kv fs' =>
        obtain ⟨k, v⟩ := kv
        have hwv : wJ v ≤ f := by
          rw [wF] at hw
          omega
        have hwfs : wF fs' ≤ f := by
          rw [wF] at hw
          omega
        have hsk : skipWs (dumpFieldsRest ((k, v) :: fs') ++ '}' :: rest) =
            ',' :: (' ' :: ('"' :: (escapeChars k.data ++ '"' ::
              (':' :: (' ' :: (dumpJson v ++ (dumpFieldsRest fs' ++ '}' :: rest))))))) := by
          rw [show dumpFieldsRest ((k, v) :: fs') ++ '}' :: rest =
            ',' :: (' ' :: ('"' :: (escapeChars k.data ++ '"' ::
              (':' :: (' ' :: (dumpJson v ++ (dumpFieldsRest fs' ++ '}' :: rest))))))) by
              rw [show dumpFieldsRest ((k, v) :: fs') =
                ',' :: ' ' :: (renderStr k ++ ':' :: ' ' :: dumpJson v ++ dumpFieldsRest fs')
                from rfl, renderStr]
              simp]
          exact skipWs_not_ws _ (by decide)
        have hsk2 : skipWs (' ' :: ('"' :: (escapeChars k.data ++ '"' ::
            (':' :: (' ' :: (dumpJson v ++ (dumpFieldsRest fs' ++ '}' :: rest))))))) =
            '"' :: (escapeChars k.data ++ '"' ::
              (':' :: (' ' :: (dumpJson v ++ (dumpFieldsRest fs' ++ '}' :: rest))))) := by
          rw [skipWs_ws_cons _ (by decide)]
          exact skipWs_not_ws _ (by decide)
        rw [parseFieldsRest_succ_cons f hsk, if_neg (by decide), if_pos rfl,
          parseFieldsRestComma_cons f hsk2, if_pos rfl,
          parseStrBody_escapes k.data _, keyWrap_some f _ _,
          parseFieldsAfterKey_cons f k.data (skipWs_not_ws _ (by decide)), if_pos rfl,
          parseVal_ws f _ (by decide),
          ihV v _ hwv (delimOk_dumpFieldsRest fs' rest),
          parseFieldsTail_some f k.data v _, ihFR fs' rest hwfs]
        rfl

/-! ## C6 and C8: the persistence layer -/

mutual

theorem wJ_le_dump : ∀ d : Json, wJ d ≤ (dumpJson d).length + 1
  | .num m e => by
    rw [wJ]
    omega
  | .str s => by
    rw [wJ]
    omega
  | .arr xs => by
    have h := wE_le_dumpElems xs
    rw [wJ, show dumpJson (.arr xs) = '[' :: dumpElems xs ++ [']'] from rfl]
    simp only [List.length_append, List.length_cons]
    omega
  | .obj fs => by
    have h := wF_le_dumpFields fs
    rw [wJ, show dumpJson (.obj fs) = '{' :: dumpFields fs ++ ['}'] from rfl]
    simp only [List.length_append, List.length_cons]
    omega

theorem wE_le_dumpElems : ∀ xs : List Json, wE xs ≤ (dumpElems xs).length + 2
  | [] => by
    rw [wE]
    omega
  | x :: xs => by
    have h1 := wJ_le_dump x
    have h2 := wE_le_dumpElemsRest xs
    rw [wE, show dumpElems (x :: xs) = dumpJson x ++ dumpElemsRest xs from rfl]
    simp only [List.length_append]
    omega

theorem wE_le_dumpElemsRest : ∀ xs : List Json, wE xs ≤ (dumpElemsRest xs).length + 1
  | [] => by
    rw [wE]
    omega
  | y :: ys => by
    have h1 := wJ_le_dump y
    have h2 := wE_le_dumpElemsRest ys
    rw [wE, show dumpElemsRest (y :: ys) =
      ',' :: ' ' :: (dumpJson y ++ dumpElemsRest ys) from rfl]
    simp only [List.length_append, List.length_cons]
    omega

theorem wF_le_dumpFields : ∀ fs : List (String × Json), wF fs ≤ (dumpFields fs).length + 2
  | [] => by
    rw [wF]
    omega
  | (k, v) :: fs => by
    have h1 := wJ_le_dump v
    have h2 := wF_le_dumpFieldsRest fs
    rw [wF, show dumpFields ((k, v) :: fs) =
      renderStr k ++ ':' :: ' ' :: dumpJson v ++ dumpFieldsRest fs from rfl]
    simp only [List.length_append, List.length_cons]
    omega

theorem wF_le_dumpFieldsRest : ∀ fs : List (String × Json), wF fs ≤ (dumpFieldsRest fs).length + 1
  | [] => by
    rw [wF]
    omega
  | (k, v) :: fs => by
    have h1 := wJ_le_dump v
    have h2 := wF_le_dumpFieldsRest fs
    have h3 : 2 ≤ (renderStr k).length := by
      rw [renderStr]
      simp
    rw [wF, show dumpFieldsRest ((k, v) :: fs) =
      ',' :: ' ' :: (renderStr k ++ ':' :: ' ' :: dumpJson v ++ dumpFieldsRest fs) from rfl]
    simp only [List.length_append, List.length_cons]
    omega

end

/-- `json.load` inverts `json.dump` on every document. -/
theorem parseDoc_saveText (d : Json) : parseDoc (saveText d) = some d := by
  have hfuel : wJ d ≤ (dumpJson d).length + 1 := wJ_le_dump d
  have h := (parse_dump_roundtrip ((dumpJson d).length + 1)).1 d [] hfuel trivial
  rw [List.append_nil] at h
  simp only [parseDoc, saveText]
  rw [h]
  rfl

theorem decodePart_encodePart (p : PartDoc) : decodePart (encodePart p) = some p := by
  obtain ⟨name, iv, lc, notes⟩ := p
  cases notes <;> rfl

theorem decodeRecord_encodeRecord (r : RecordDoc) : decodeRecord (encodeRecord r) = some r := by
  obtain ⟨date, mk, title, details, cost⟩ := r
  cases details <;> cases cost <;> rfl

theorem decodeList_map {α : Type} (f : Json → Option α) (g : α → Json) (l : List α)
    (h : ∀ x ∈ l, f (g x) = some x) : decodeList f (l.map g) = some l := by
  induction l with
  | nil => rfl
  | cons x xs ih =>
    rw [List.map_cons, decodeList, h x (List.mem_cons_self _ _),
      ih (fun y hy => h y (List.mem_cons_of_mem _ hy))]

theorem decodeState_encodeState (s : StateDoc) : decodeState (encodeState s) = some s := by
  obtain ⟨cm, parts, hist⟩ := s
  have hp : decodeList decodePart (parts.map encodePart) = some parts :=
    decodeList_map _ _ _ (fun x _ => decodePart_encodePart x)
  have hh : decodeList decodeRecord (hist.map encodeRecord) = some hist :=
    decodeList_map _ _ _ (fun x _ => decodeRecord_encodeRecord x)
  have e1 : ¬ ("parts" : String) = "service_history" := by decide
  have e2 : ¬ ("parts" : String) = "current_mileage_km" := by decide
  have e3 : ¬ ("service_history" : String) = "current_mileage_km" := by decide
  have e4 : ¬ ("current_mileage_km" : String) = "parts" := by decide
  have e5 : ¬ ("current_mileage_km" : String) = "service_history" := by decide
  cases cm with
  | none =>
    simp only [encodeState, List.nil_append, decodeState, lookupJ, reduceIte,
      e1, e2, e3, if_false, hp, hh]
  | some m =>
    simp only [encodeState, List.cons_append, List.nil_append, decodeState, lookupJ, reduceIte,
      e1, e2, e3, e4, e5, if_false, hp, hh]

/-- **C8**: saving any state to a location and reloading from it yields a
document equal in all fields — the whole serialized document parses back
exactly (so `cost` loses no precision and `parts` keeps its order), and
reading the document back through the storage schema recovers the state. -/
theorem save_load_roundtrip (s : StateDoc) :
    _load (some (saveText (encodeState s))) = .ok (encodeState s) ∧
    decodeState (encodeState s) = some s := by
  refine ⟨?_, decodeState_encodeState s⟩
  simp only [_load]
  rw [parseDoc_saveText (encodeState s)]

/-- **C6**: `_load` returns the empty default document (mileage `0`, empty
`parts` and `service_history`) when no file exists, and propagates a
`StorageCorruptError` (`json.JSONDecodeError`) when content exists but does
not parse as structured data. -/
theorem load_default_or_corrupt (t : String) (hbad : parseDoc t = none) :
    _load none = .ok defaultData ∧
    decodeState defaultData = some ⟨some 0, [], []⟩ ∧
    _load (some t) = .error .corrupt := by
  refine ⟨rfl, rfl, ?_⟩
  simp only [_load, hbad]

/- Witness for `load_default_or_corrupt`: the truncated one-character
document consisting of a lone opening brace is malformed. -/
unseal parseVal parseValCore parseElems parseElemsTail parseElemsRest parseFields keyWrap
  parseFieldsAfterKey parseFieldsTail parseFieldsRest parseFieldsRestComma in
theorem load_default_or_corrupt_witness :
    parseDoc "\x7b" = none ∧
    (_load none = .ok defaultData ∧
     decodeState defaultData = some ⟨some 0, [], []⟩ ∧
     _load (some "\x7b") = .error .corrupt) :=
  ⟨rfl, load_default_or_corrupt "\x7b" rfl⟩

/-! ## C4 and C5: `change_part` -/

/-- **C4**: when no stored part's trimmed, case-folded name matches,
`change_part` returns `False` as its result (not an exception), leaves the
entire state unchanged, and does not save. -/
theorem change_part_not_found (s : StateDoc) (name : String) (km : Int)
    (notes : String) (h : find_part s name = none) :
    change_part s name km notes = ⟨s, false, false⟩ := by
  rw [find_part] at h
  simp [change_part, h]

/-- Witness for `change_part_not_found`: the spec's scenario
`ChangePart("nonexistent", 100)` on a store with one part. -/
theorem change_part_not_found_witness :
    find_part ⟨some 0, [⟨"Oil Filter", 10000, 5000, none⟩], []⟩ "nonexistent" = none ∧
    change_part ⟨some 0, [⟨"Oil Filter", 10000, 5000, none⟩], []⟩ "nonexistent" 100 "" =
      ⟨⟨some 0, [⟨"Oil Filter", 10000, 5000, none⟩], []⟩, false, false⟩ :=
  ⟨by decide,
    change_part_not_found ⟨some 0, [⟨"Oil Filter", 10000, 5000, none⟩], []⟩
      "nonexistent" 100 "" (by decide)⟩

/-- **C5**: when a stored part matches the trimmed, case-folded name,
`change_part` updates exactly that part (the first match), setting its
`last_change_km` to `km`; a non-empty `notes` argument overwrites the stored
notes, while an empty one leaves them untouched (so notes can never be
cleared).  The call saves and returns `True`. -/
theorem change_part_found (s : StateDoc) (name : String) (km : Int)
    (notes : String) (p : PartDoc) (h : find_part s name = some p) :
    ∃ l₁ l₂, s.parts = l₁ ++ p :: l₂ ∧
      (∀ q ∈ l₁, partMatches name q = false) ∧
      change_part s name km notes =
        ⟨{ s with parts := l₁ ++
            { p with last_change_km := km,
                     notes := if notes = "" then p.notes else some notes } :: l₂ },
          true, true⟩ := by
  rw [find_part] at h
  obtain ⟨hpa, l₁, l₂, hdec, hl₁⟩ := List.find?_eq_some.mp h
  have hl₁' : ∀ x ∈ l₁, ¬ partMatches name x = true := by
    intro x hx
    simpa using hl₁ x hx
  refine ⟨l₁, l₂, hdec, fun q hq => by simpa using hl₁ q hq, ?_⟩
  simp only [change_part, h]
  congr 1
  conv_lhs => rw [hdec]
  rw [updateFirst_spec _ _ _ _ _ hl₁', if_pos hpa]

/-- Witness for `change_part_found`: the spec's scenario — `"Brake Pads"`
stored, `ChangePart("brake pads", 30000)` matches case-insensitively. -/
theorem change_part_found_witness :
    find_part ⟨some 0, [⟨"Brake Pads", 30000, 0, some "oem"⟩], []⟩ "brake pads" =
      some ⟨"Brake Pads", 30000, 0, some "oem"⟩ ∧
    ∃ l₁ l₂,
      ([⟨"Brake Pads", 30000, 0, some "oem"⟩] : List PartDoc) = l₁ ++ ⟨"Brake Pads", 30000, 0, some "oem"⟩ :: l₂ ∧
      (∀ q ∈ l₁, partMatches "brake pads" q = false) ∧
      change_part ⟨some 0, [⟨"Brake Pads", 30000, 0, some "oem"⟩], []⟩ "brake pads" 30000 "" =
        ⟨{ (⟨some 0, [⟨"Brake Pads", 30000, 0, some "oem"⟩], []⟩ : StateDoc) with
            parts := l₁ ++
              { (⟨"Brake Pads", 30000, 0, some "oem"⟩ : PartDoc) with
                  last_change_km := (30000 : Int),
                  notes := if ("" : String) = "" then some "oem" else some "" } :: l₂ },
          true, true⟩ :=
  ⟨by decide,
    change_part_found ⟨some 0, [⟨"Brake Pads", 30000, 0, some "oem"⟩], []⟩
      "brake pads" 30000 "" ⟨"Brake Pads", 30000, 0, some "oem"⟩ (by decide)⟩

end CarTracker
